import Mathlib

/-!
Verification of the content reconciliation pipeline of the arugifa CMS.

The development models, as a shallow embedding:

* the glob-to-regex translation and prefix matching performed by
  `ContentManager.get_handler` (src/arugifa/cms/update.py),
* the manager operations `add`, `modify`, `rename`, `delete` and the
  per-category batch functions of `ContentUpdateRunner`,
* the transaction protocol of `ContentManager.load_changes`,
* the error collection windows and `load` caching of
  `BaseFileProcessor` (src/arugifa/cms/base/processors.py) and
  `BaseSourceParser` (src/arugifa/cms/base/parsers.py),
* the equality method of the `HandlerNotFound` exception
  (src/arugifa/cms/exceptions.py).

Python strings are modelled as lists of characters, Python dictionaries
that are built up in insertion order as association lists, and raised
exceptions as `Except` error results.  Functions named after the source
keep the behaviour of the source, including its bugs; definitions whose
doc comment starts with Modelled from the spec cover the external
`BaseUpdateRunner` collaborator (from the arugifa-cli dependency), which
is not part of this repository.
-/

/-- Python strings, modelled as lists of characters. -/
abbrev Str := List Char

/-- Shorthand to write down concrete Python strings. -/
def toL (s : String) : Str := s.toList

/-! ## A model of the regular expression fragment used by `get_handler`

`ContentManager.get_handler` builds a regular expression from each
registered glob pattern and tests it with `re.match`, which anchors the
match at the start of the string only.  The regexes that the translation
produces are concatenations of atoms (a literal character, an escaped
character, or the any-character dot) each optionally followed by a
`+` or `*` quantifier.  The model below parses exactly this fragment and
implements matching with full backtracking, so a match exists in the
model exactly when Python finds one. -/

/-- A regex atom: the dot (any character except a newline) or a literal. -/
inductive RAtom where
  | dot
  | lit (c : Char)
deriving DecidableEq

/-- An atom with its quantifier: exactly once, one or more, zero or more. -/
inductive RPiece where
  | once (a : RAtom)
  | plus (a : RAtom)
  | star (a : RAtom)
deriving DecidableEq

/-- Atom matching: the regex dot matches every character except a newline
(the Python default, no DOTALL flag is passed). -/
def matchAtom : RAtom → Char → Bool
  | .dot, c => c != '\n'
  | .lit a, c => a == c

/-- Backtracking regex runner, with explicit fuel so that it is
structurally recursive and computes by kernel reduction.  When `full` is
`false` the run succeeds as soon as the pieces are exhausted (the
`re.match` prefix semantics); when `full` is `true` the rest of the
string must be empty as well (the language of the regex).  Each
recursive call decreases `ps.length + s.length`, so any fuel above that
sum gives the fixpoint semantics (theorem `reRunF_fuel`). -/
def reRunF : Nat → Bool → List RPiece → List Char → Bool
  | 0, _, _, _ => false
  | _ + 1, full, [], s => !full || s.isEmpty
  | _ + 1, _, .once _ :: _, [] => false
  | f + 1, full, .once a :: ps, c :: s => matchAtom a c && reRunF f full ps s
  | _ + 1, _, .plus _ :: _, [] => false
  | f + 1, full, .plus a :: ps, c :: s =>
      matchAtom a c && (reRunF f full ps s || reRunF f full (.plus a :: ps) s)
  | f + 1, full, .star _a :: ps, [] => reRunF f full ps []
  | f + 1, full, .star a :: ps, c :: s =>
      reRunF f full ps (c :: s) || (matchAtom a c && reRunF f full (.star a :: ps) s)

/-- Run a regex with sufficient fuel. -/
def reRun (full : Bool) (ps : List RPiece) (s : List Char) : Bool :=
  reRunF (ps.length + s.length + 1) full ps s

/-- Model of a truthy `re.match(regex, s)`: some prefix of `s` belongs to
the language of the regex (the match is anchored at the start only). -/
def reMatch (ps : List RPiece) (s : List Char) : Bool := reRun false ps s

/-- Full matching: `s` itself belongs to the language of the regex. -/
def reFull (ps : List RPiece) (s : List Char) : Bool := reRun true ps s

/-- The atom denoted by an unescaped character: the dot is the wildcard,
anything else a literal. -/
def mkAtom (c : Char) : RAtom := if c = '.' then RAtom.dot else RAtom.lit c

/-- Parser for the regex fragment: atoms are an escaped character
(backslash followed by the character), the dot, or a literal character,
and every atom may carry a `+` or `*` quantifier. -/
def parseRegexL : List Char → List RPiece
  | [] => []
  | [c] =>
    if c = '\\' then [.once (.lit '\\')]
    else if c = '.' then [.once .dot]
    else [.once (.lit c)]
  | [c, c2] =>
    if c = '\\' then [.once (.lit c2)]
    else if c2 = '+' then [.plus (mkAtom c)]
    else if c2 = '*' then [.star (mkAtom c)]
    else .once (mkAtom c) :: parseRegexL [c2]
  | c :: c2 :: c3 :: rest =>
    if c = '\\' then
      if c3 = '+' then .plus (.lit c2) :: parseRegexL rest
      else if c3 = '*' then .star (.lit c2) :: parseRegexL rest
      else .once (.lit c2) :: parseRegexL (c3 :: rest)
    else
      if c2 = '+' then .plus (mkAtom c) :: parseRegexL (c3 :: rest)
      else if c2 = '*' then .star (mkAtom c) :: parseRegexL (c3 :: rest)
      else .once (mkAtom c) :: parseRegexL (c2 :: c3 :: rest)

/-! ## The two `re.sub` rewrites of `get_handler`

The source first rewrites every occurrence of `**` to `.+` and then
rewrites the first occurrence of `*.` followed by at least one
non-newline character: the pattern is the raw regex backslash-star
backslash-dot followed by a greedy nonempty group, so the group captures
everything up to the end of the line and the whole match is replaced by
`.+\.` followed by the captured text.  Because the first match extends to
the end of the line, scanning resumes after it, which the state flag of
`subStarDotGo` reproduces: `true` means the scanner is inside the copied
captured text and skips it until a newline. -/

/-- Replace every non-overlapping occurrence of `**` with `.+`, scanning
from the left, as the first `re.sub` of `get_handler` does. -/
def subDoubleStar : List Char → List Char
  | [] => []
  | [c] => [c]
  | c :: c2 :: rest =>
    if c = '*' ∧ c2 = '*' then '.' :: '+' :: subDoubleStar rest
    else c :: subDoubleStar (c2 :: rest)

/-- Scanner for the second `re.sub` of `get_handler` (see the section
comment above).  With the flag `false` it looks for `*.` followed by a
non-newline character and replaces the `*.` with `.+\.`; with the flag
`true` it copies the captured text up to the next newline. -/
def subStarDotGo : Bool → List Char → List Char
  | _, [] => []
  | true, c :: rest =>
    if c = '\n' then c :: subStarDotGo false rest else c :: subStarDotGo true rest
  | false, [c] => [c]
  | false, [c, c2] => [c, c2]
  | false, c :: c2 :: c3 :: rest =>
    if c = '*' ∧ c2 = '.' ∧ c3 ≠ '\n' then
      '.' :: '+' :: '\\' :: '.' :: c3 :: subStarDotGo true rest
    else c :: subStarDotGo false (c2 :: c3 :: rest)

/-- The second `re.sub` of `get_handler`, on whole strings. -/
def subStarDotL (l : List Char) : List Char := subStarDotGo false l

/-- The complete glob-to-regex translation of `get_handler`: first the
double-star rewrite, then the filename-wildcard rewrite. -/
def globToRegexL (pat : Str) : Str := subStarDotL (subDoubleStar pat)

/-- Model of the loop body test of `get_handler`: translate the glob
pattern and test the path string against it with `re.match`. -/
def globMatchB (pat : Str) (s : Str) : Bool := reMatch (parseRegexL (globToRegexL pat)) s

/-! ## Paths and exceptions -/

/-- Model of a `pathlib` path: an absolute or relative path given by its
segments.  Segments of well-formed paths are nonempty and contain no
slash; the definitions do not depend on that, theorems assume it where
needed. -/
structure SrcPath where
  absolute : Bool
  segments : List Str
deriving DecidableEq

/-- String rendering of a relative path: segments joined by slashes, as
`str(...)` renders a relative `pathlib.PurePath`. -/
def interSlash : List Str → Str
  | [] => []
  | [s] => s
  | s :: rest => s ++ '/' :: interSlash rest

/-- Read errors that the reader collaborator can fail with (the two
exception classes caught by `BaseFileProcessor.load`). -/
inductive ReadErr where
  | osError
  | unicodeDecodeError
deriving DecidableEq

/-- The exceptions that can cross the boundaries modelled here.  Python
built-in errors raised by slips in the source (TypeError, KeyError,
AttributeError, NameError) are included, since the runner code raises
them.  `planFailure` and `runFailure` model the failures that the
external update-runner base class raises; `runFailure` carries the
aggregated path-to-error mapping. -/
inductive PyExc where
  | gitUnknownCommit
  | databaseError
  | fileNotVersioned (path : SrcPath)
  | handlerNotFound (path : SrcPath)
  | handlerChangeForbidden (original new_ : SrcPath)
  | invalidSourceFile (path : SrcPath)
  | fileLoadingError (cause : ReadErr)
  | sourceMalformatted (id : Nat)
  | sourceParsingError (id : Nat)
  | fileProcessingError (id : Nat)
  | filePathScanningError (id : Nat)
  | typeError
  | keyError
  | attributeError
  | nameError
  | planFailure (errors : List PyExc)
  | runFailure (errors : List (SrcPath × PyExc))

/-- Python class name of each modelled exception (used by the `__eq__`
of `HandlerNotFound`, which compares classes only). -/
def pyClassOf : PyExc → String
  | .gitUnknownCommit => "GitUnknownCommit"
  | .databaseError => "DatabaseError"
  | .fileNotVersioned _ => "FileNotVersioned"
  | .handlerNotFound _ => "HandlerNotFound"
  | .handlerChangeForbidden _ _ => "HandlerChangeForbidden"
  | .invalidSourceFile _ => "InvalidSourceFile"
  | .fileLoadingError _ => "FileLoadingError"
  | .sourceMalformatted _ => "SourceMalformatted"
  | .sourceParsingError _ => "SourceParsingError"
  | .fileProcessingError _ => "FileProcessingError"
  | .filePathScanningError _ => "FilePathScanningError"
  | .typeError => "TypeError"
  | .keyError => "KeyError"
  | .attributeError => "AttributeError"
  | .nameError => "NameError"
  | .planFailure _ => "ContentUpdatePlanFailure"
  | .runFailure _ => "ContentUpdateRunFailure"

/-- The `__eq__` method that `HandlerNotFound` defines in
src/arugifa/cms/exceptions.py: `self.__class__ == other.__class__`, so
equality depends only on the classes of the two exception objects and
never on the path either of them was raised for. -/
def handlerNotFoundEq (self other : PyExc) : Bool :=
  pyClassOf self == pyClassOf other

/-- Names defined or imported at the top level of
src/arugifa/cms/exceptions.py.  An attribute lookup on the module
succeeds exactly for these names. -/
def exceptionsModuleNames : List String :=
  ["Iterable", "BaseUpdatePlanFailure", "BaseUpdateRunFailure", "templates",
   "CMSError", "GitError", "GitRepositoryNotFound", "GitCLIError", "GitUnknownCommit",
   "DatabaseError", "ContentError", "FileNotVersioned", "DupplicatedContent",
   "HandlerNotFound", "HandlerChangeForbidden", "FileAlreadyAdded", "FileNotAddedYet",
   "FileLoadingError", "FileProcessingError", "FilePathScanningError",
   "SourceParsingError", "SourceMalformatted", "InvalidFile",
   "ContentUpdatePlanFailure", "ContentUpdateRunFailure"]

/-- Names defined or imported at the top level of
src/arugifa/cms/base/parsers.py.  The module never imports `exceptions`,
which is why the except clause of its parse wrapper raises NameError. -/
def parsersModuleNames : List String :=
  ["abstractstaticmethod", "contextmanager", "Any", "SourceParsingErrors",
   "CatchParserErrors", "BaseSourceParser"]

/-- Methods of `ContentManager` (src/arugifa/cms/update.py).  There is no
`replace` method, which is why `replace_content` raises AttributeError
when it calls `self.manager.replace`. -/
def contentManagerMethods : List String :=
  ["load_changes", "add", "modify", "rename", "delete", "get_handler"]

/-! ## Handler resolution (`ContentManager.get_handler`) -/

/-- A resolved handler instance: its concrete class and the path it was
constructed with (`handler(source_file)` receives the original argument
of `get_handler`, not the normalized relative path). -/
structure Handler where
  cls : String
  source_file : SrcPath
deriving DecidableEq

/-- The content manager state used by resolution: the path of the tracked
Git repository (given by its segments, as an absolute path) and the
ordered pattern-to-handler-class registry (`self.handlers.items()`
iterates a Python dict in insertion order). -/
structure ContentManager where
  repositoryPath : List Str
  handlers : List (Str × String)

/-- Model of `source_file.relative_to(self.repository.path)`: strip the
root segments if they are a prefix, otherwise fail (Python raises
ValueError, which `get_handler` turns into FileNotVersioned). -/
def relativeTo (p : SrcPath) (root : List Str) : Option (List Str) :=
  if root.isPrefixOf p.segments then some (p.segments.drop root.length) else none

/-- The normalization step of `get_handler`: an absolute path must be
relative to the repository root; a relative path is used as is. -/
def relOf (cm : ContentManager) (p : SrcPath) : Option (List Str) :=
  if p.absolute then relativeTo p cm.repositoryPath else some p.segments

/-- Model of `ContentManager.get_handler`: normalize the path, then scan
the registry in insertion order and return a handler instance built from
the first pattern whose translated regex matches a prefix of the path
string; fail with FileNotVersioned for absolute paths outside the root
and with HandlerNotFound when no pattern matches. -/
def get_handler (cm : ContentManager) (source_file : SrcPath) : Except PyExc Handler :=
  match relOf cm source_file with
  | none => .error (.fileNotVersioned source_file)
  | some rel =>
    match cm.handlers.find? (fun gh => globMatchB gh.1 (interSlash rel)) with
    | some gh => .ok ⟨gh.2, source_file⟩
    | none => .error (.handlerNotFound source_file)

/-! ## Manager operations (`ContentManager.add` / `modify` / `rename` / `delete`)

Handler classes are abstract in the repository (subclasses implement
`insert`, `update`, `rename`, `delete` against a database), so their
behaviour is a parameter: a `HandlerOps` assigns to every handler class
and path the outcome of each operation, `γ` being the type of the opaque
document records that operations return.  To express which handler
operations a run executes, every function also returns the trace of
operations it actually invoked. -/

/-- Outcomes of the four handler operations, indexed by handler class and
the path the handler instance was built from. -/
structure HandlerOps (γ : Type) where
  insertR : String → SrcPath → Except PyExc γ
  updateR : String → SrcPath → Except PyExc γ
  renameR : String → SrcPath → SrcPath → Except PyExc Unit
  deleteR : String → SrcPath → Except PyExc Unit

/-- A handler operation invocation, as recorded in execution traces. -/
inductive OpCall where
  | insertOp (cls : String) (path : SrcPath)
  | updateOp (cls : String) (path : SrcPath)
  | renameOp (cls : String) (src dst : SrcPath)
  | deleteOp (cls : String) (path : SrcPath)
deriving DecidableEq

/-- Model of `ContentManager.add`: resolve the handler for the source
file and invoke its insert operation. -/
def managerAdd {γ : Type} (cm : ContentManager) (ops : HandlerOps γ) (src : SrcPath) :
    List OpCall × Except PyExc γ :=
  match get_handler cm src with
  | .error e => ([], .error e)
  | .ok h => ([.insertOp h.cls h.source_file], ops.insertR h.cls h.source_file)

/-- Model of `ContentManager.modify`: resolve the handler for the source
file and invoke its update operation. -/
def managerModify {γ : Type} (cm : ContentManager) (ops : HandlerOps γ) (src : SrcPath) :
    List OpCall × Except PyExc γ :=
  match get_handler cm src with
  | .error e => ([], .error e)
  | .ok h => ([.updateOp h.cls h.source_file], ops.updateR h.cls h.source_file)

/-- Model of `ContentManager.rename`: resolve handlers for both paths
(either resolution error propagates), reject the pair with
HandlerChangeForbidden when the two handler classes differ (the assert
comparing the classes raises AssertionError, which the except clause
converts), otherwise invoke the rename operation of the source handler
and then the update operation of the destination handler; an error of
either operation propagates, and a failed rename skips the update. -/
def managerRename {γ : Type} (cm : ContentManager) (ops : HandlerOps γ)
    (src dst : SrcPath) : List OpCall × Except PyExc γ :=
  match get_handler cm src with
  | .error e => ([], .error e)
  | .ok hs =>
    match get_handler cm dst with
    | .error e => ([], .error e)
    | .ok hd =>
      if hs.cls = hd.cls then
        match ops.renameR hs.cls hs.source_file hd.source_file with
        | .error e => ([.renameOp hs.cls hs.source_file hd.source_file], .error e)
        | .ok _ =>
          ([.renameOp hs.cls hs.source_file hd.source_file, .updateOp hd.cls hd.source_file],
            ops.updateR hd.cls hd.source_file)
      else ([], .error (.handlerChangeForbidden src dst))

/-- Model of `ContentManager.delete`: resolve the handler for the source
file and invoke its delete operation. -/
def managerDelete {γ : Type} (cm : ContentManager) (ops : HandlerOps γ) (src : SrcPath) :
    List OpCall × Except PyExc Unit :=
  match get_handler cm src with
  | .error e => ([], .error e)
  | .ok h => ([.deleteOp h.cls h.source_file], ops.deleteR h.cls h.source_file)

/-! ## The run phase (`ContentUpdateRunner`) -/

/-- The change plan, as `GitRepository.diff` produces it: a dictionary
with exactly the keys added, modified, renamed and deleted. -/
structure Todo where
  added : List SrcPath
  modified : List SrcPath
  renamed : List (SrcPath × SrcPath)
  deleted : List SrcPath

/-- Exception classes caught by the per-item except clause of
`add_content`, `replace_content` and `delete_content`:
DatabaseError, HandlerNotFound and InvalidSourceFile. -/
def addCaught : PyExc → Bool
  | .databaseError => true
  | .handlerNotFound _ => true
  | .invalidSourceFile _ => true
  | _ => false

/-- Exception classes caught by the per-item except clause of
`rename_content`: the same three plus HandlerChangeForbidden. -/
def renameCaught : PyExc → Bool
  | .databaseError => true
  | .handlerChangeForbidden _ _ => true
  | .handlerNotFound _ => true
  | .invalidSourceFile _ => true
  | _ => false

/-- One iteration of a per-category loop of `ContentUpdateRunner`: run
the item (its trace and outcome are `step`), then either record the
result under the path and continue with the rest of the loop, record an
exception of a caught class as an error under the path and continue, or,
for an uncaught exception, abort the loop: the rest is not executed (its
trace is dropped) and the exception propagates. -/
def runItem {γ : Type} (src : SrcPath) (caught : PyExc → Bool)
    (step : List OpCall × Except PyExc γ)
    (rest : List OpCall × Except PyExc (List (SrcPath × γ) × List (SrcPath × PyExc))) :
    List OpCall × Except PyExc (List (SrcPath × γ) × List (SrcPath × PyExc)) :=
  match step, rest with
  | (tr, .ok c), (tr2, .ok (res, errs)) => (tr ++ tr2, .ok ((src, c) :: res, errs))
  | (tr, .ok _), (tr2, .error e2) => (tr ++ tr2, .error e2)
  | (tr, .error e), (tr2, rr) =>
    if caught e then
      match rr with
      | .ok (res, errs) => (tr ++ tr2, .ok (res, (src, e) :: errs))
      | .error e2 => (tr ++ tr2, .error e2)
    else (tr, .error e)

/-- Model of `ContentUpdateRunner.add_content`: walk the added files in
order; each file goes through `manager.add`, results are recorded under
their path, exceptions of the caught classes are recorded as errors
under their path without stopping the loop, and any other exception
aborts the loop and propagates. -/
def add_content {γ : Type} (cm : ContentManager) (ops : HandlerOps γ) :
    List SrcPath → List OpCall × Except PyExc (List (SrcPath × γ) × List (SrcPath × PyExc))
  | [] => ([], .ok ([], []))
  | src :: rest =>
    runItem src addCaught (managerAdd cm ops src) (add_content cm ops rest)

/-- The lookup `self.todo["replaced"]` performed by
`ContentUpdateRunner.replace_content`: the plan dictionary built by
`GitRepository.diff` has only the keys added, modified, renamed and
deleted, so the lookup raises KeyError before any file is processed. -/
def todoGetReplaced (_todo : Todo) : Except PyExc (List SrcPath) := .error .keyError

/-- The call `self.manager.replace(src)` of `replace_content`:
`ContentManager` defines no method named replace (see
`contentManagerMethods`), so the attribute lookup raises AttributeError,
a class the per-item except clause does not catch. -/
def managerReplace {γ : Type} (_cm : ContentManager) (_ops : HandlerOps γ)
    (_src : SrcPath) : List OpCall × Except PyExc γ := ([], .error .attributeError)

/-- The per-item loop of `replace_content` (dead code behind the
KeyError): call `manager.replace` per item, with the same record-caught
errors-or-abort shape as the other categories. -/
def replaceLoop {γ : Type} (cm : ContentManager) (ops : HandlerOps γ) :
    List SrcPath → List OpCall × Except PyExc (List (SrcPath × γ) × List (SrcPath × PyExc))
  | [] => ([], .ok ([], []))
  | src :: rest =>
    runItem src addCaught (managerReplace cm ops src) (replaceLoop cm ops rest)

/-- Model of `ContentUpdateRunner.replace_content`: the loop head looks
up `self.todo["replaced"]`, which raises KeyError, so the function always
fails before touching any file; the loop body, had it run, would have
called the missing `manager.replace` per item. -/
def replace_content {γ : Type} (cm : ContentManager) (ops : HandlerOps γ) (todo : Todo) :
    List OpCall × Except PyExc (List (SrcPath × γ) × List (SrcPath × PyExc)) :=
  match todoGetReplaced todo with
  | .error e => ([], .error e)
  | .ok files => replaceLoop cm ops files

/-- Model of `ContentUpdateRunner.rename_content`: walk the renamed
pairs in order; each pair goes through `manager.rename`, results are
recorded under the old path, exceptions of the caught classes (among
them HandlerChangeForbidden) are recorded as errors under the old path
without stopping the loop, and any other exception aborts the loop and
propagates. -/
def rename_content {γ : Type} (cm : ContentManager) (ops : HandlerOps γ) :
    List (SrcPath × SrcPath) →
      List OpCall × Except PyExc (List (SrcPath × γ) × List (SrcPath × PyExc))
  | [] => ([], .ok ([], []))
  | (src, dst) :: rest =>
    runItem src renameCaught (managerRename cm ops src dst) (rename_content cm ops rest)

/-- Model of `ContentUpdateRunner.delete_content`: the loop calls
`self.manager.delete(src)` without awaiting it, so the coroutine object
is created but its body never executes: no handler is resolved, no
operation runs, no exception can reach the except clause, and every path
is unconditionally appended to the result list.  The error dictionary
therefore always comes back empty and the trace is empty. -/
def delete_content {γ : Type} (_cm : ContentManager) (_ops : HandlerOps γ)
    (deleted : List SrcPath) : List OpCall × (List SrcPath × List (SrcPath × PyExc)) :=
  ([], (deleted, []))

/-- The expression `len(itertools.chain(self.todo.values()))` computed at
the top of `ContentUpdateRunner._run`: `itertools.chain` objects define
no `__len__`, so `len` raises TypeError. -/
def lenOfChain (_todo : Todo) : Except PyExc Nat := .error .typeError

/-- The per-category results of a completed run, before aggregation. -/
structure RunResult (γ : Type) where
  added : List (SrcPath × γ)
  modified : List (SrcPath × γ)
  renamed : List (SrcPath × γ)
  deleted : List SrcPath

/-- The per-category error dictionaries of a completed run. -/
structure RunErrors where
  added : List (SrcPath × PyExc)
  modified : List (SrcPath × PyExc)
  renamed : List (SrcPath × PyExc)
  deleted : List (SrcPath × PyExc)

/-- The body of `ContentUpdateRunner._run` after the document count: the
four categories execute in the fixed order add, then modify (through
`replace_content`), then rename, then delete, each aborting the run if it
raises an uncaught exception. -/
def contentRunBody {γ : Type} (cm : ContentManager) (ops : HandlerOps γ) (todo : Todo) :
    List OpCall × Except PyExc (RunResult γ × RunErrors) :=
  match add_content cm ops todo.added with
  | (tr1, .error e) => (tr1, .error e)
  | (tr1, .ok (ra, ea)) =>
    match replace_content cm ops todo with
    | (tr2, .error e) => (tr1 ++ tr2, .error e)
    | (tr2, .ok (rm, em)) =>
      match rename_content cm ops todo.renamed with
      | (tr3, .error e) => (tr1 ++ tr2 ++ tr3, .error e)
      | (tr3, .ok (rr, er)) =>
        match delete_content cm ops todo.deleted with
        | (tr4, (rd, ed)) =>
          (tr1 ++ tr2 ++ tr3 ++ tr4, .ok (⟨ra, rm, rr, rd⟩, ⟨ea, em, er, ed⟩))

/-- Model of `ContentUpdateRunner._run`: compute the document count for
the progress bar, then run the four categories.  Because the count is
`len` of an `itertools.chain` object, the TypeError aborts `_run` before
any category starts and before any handler operation executes. -/
def contentRun {γ : Type} (cm : ContentManager) (ops : HandlerOps γ) (todo : Todo) :
    List OpCall × Except PyExc (RunResult γ × RunErrors) :=
  match lenOfChain todo with
  | .error e => ([], .error e)
  | .ok _count => contentRunBody cm ops todo

/-- Model of `ContentUpdateRunner._plan`: return the diff of the tracked
repository together with an empty error list, or catch a Git error from
the diff collaborator and return it as the planning error list; any
non-Git exception propagates. -/
def contentPlan (diffResult : Except PyExc Todo) :
    Except PyExc (Option Todo × List PyExc) :=
  match diffResult with
  | .ok d => .ok (some d, [])
  | .error .gitUnknownCommit => .ok (none, [.gitUnknownCommit])
  | .error e => .error e

/-- Modelled from the spec: the external `BaseUpdateRunner.run` of the
arugifa-cli dependency executes `_run` and, once all items have been
attempted, raises a run failure carrying the aggregated path-to-error
mapping of the four categories when any of them is nonempty; an
exception escaping `_run` propagates. -/
def runnerRun {γ : Type} (cm : ContentManager) (ops : HandlerOps γ) (todo : Todo) :
    Except PyExc (RunResult γ) :=
  match (contentRun cm ops todo).2 with
  | .error e => .error e
  | .ok (res, errs) =>
    if errs.added.isEmpty && errs.modified.isEmpty && errs.renamed.isEmpty
        && errs.deleted.isEmpty then
      .ok res
    else .error (.runFailure (errs.added ++ errs.modified ++ errs.renamed ++ errs.deleted))

/-- Modelled from the spec: the external `BaseUpdateRunner` raises a
plan failure wrapping the planning errors, before executing any item,
when a run is attempted on a plan whose error list is nonempty; with an
error-free plan it proceeds to `run`. -/
def runnerRunChecked {γ : Type} (cm : ContentManager) (ops : HandlerOps γ)
    (planned : Option Todo × List PyExc) : List OpCall × Except PyExc (RunResult γ) :=
  match planned with
  | (_, e :: rest) => ([], .error (.planFailure (e :: rest)))
  | (none, []) => ([], .error (.planFailure []))
  | (some todo, []) => ((contentRun cm ops todo).1, runnerRun cm ops todo)

/-! ## The transaction protocol (`ContentManager.load_changes`) -/

/-- Commit and rollback counters of the shared database transaction. -/
structure DBTrace where
  commits : Nat
  rollbacks : Nat
deriving DecidableEq

/-- Model of the `load_changes` context manager.  When the body of the
with-block finishes without an exception, the else branch commits.  When
any exception escapes the body, Python evaluates the except clause
`except exceptions.UpdateFailed`: the exceptions module defines no
attribute named UpdateFailed (see `exceptionsModuleNames`), so the
lookup itself raises AttributeError; the rollback line is never reached
and the AttributeError replaces the original exception.  The inner
branch keeps the intended behaviour for comparison: it is dead code. -/
def load_changes {γ : Type} (db : DBTrace) (body : Except PyExc γ) :
    DBTrace × Except PyExc γ :=
  match body with
  | .ok a => (⟨db.commits + 1, db.rollbacks⟩, .ok a)
  | .error e =>
    if "UpdateFailed" ∈ exceptionsModuleNames then
      match e with
      | .planFailure es => (⟨db.commits, db.rollbacks + 1⟩, .error (.planFailure es))
      | .runFailure es => (⟨db.commits, db.rollbacks + 1⟩, .error (.runFailure es))
      | e2 => (db, .error e2)
    else (db, .error .attributeError)

/-! ## File processors (`BaseFileProcessor`, src/arugifa/cms/base/processors.py)

The mutable attributes of a processor instance are its cached parsed
source, its error set and its catch flag; the model threads them as an
explicit state.  The Python error container is a set of exception
instances, which (the relevant exception classes neither override
equality nor hashing) behaves as a collection of distinct objects; the
model keeps the captured errors as a list in capture order.  A wrapped
scan or process method is modelled as a state transformer returning the
new state and either a value or a raised exception. -/

/-- Mutable state of a `BaseFileProcessor` instance: the number of reader
invocations performed so far (instrumentation for the read-once claim),
the cached parsed source, the error set and the catch flag. -/
structure ProcState (σ : Type) where
  readCount : Nat
  source : Option σ
  errors : List PyExc
  catchErrors : Bool

/-- A fresh processor, as `__init__` builds it: no cached source, empty
error set, catching disabled. -/
def procInit (σ : Type) : ProcState σ := ⟨0, none, [], false⟩

/-- Exception classes intercepted by the `process_` wrapper installed by
the `CatchProcessorErrors` metaclass: FileProcessingError together with
its subclass FilePathScanningError, and SourceParsingError together with
its subclass SourceMalformatted. -/
def processCaught : PyExc → Bool
  | .fileProcessingError _ => true
  | .filePathScanningError _ => true
  | .sourceParsingError _ => true
  | .sourceMalformatted _ => true
  | _ => false

/-- Exception classes intercepted by the `scan_` wrapper:
FilePathScanningError only. -/
def scanCaught : PyExc → Bool
  | .filePathScanningError _ => true
  | _ => false

/-- The wrapper that `CatchProcessorErrors` installs around `process_`
methods: run the method; on an exception of an intercepted class, check
the catch flag of the instance: propagate when it is off, otherwise add
the exception to the error set and return None; any other exception
propagates. -/
def processWrapped {σ γ : Type} (f : ProcState σ → ProcState σ × Except PyExc γ)
    (s : ProcState σ) : ProcState σ × Except PyExc (Option γ) :=
  match f s with
  | (s2, .ok v) => (s2, .ok (some v))
  | (s2, .error e) =>
    if processCaught e then
      if s2.catchErrors then
        (⟨s2.readCount, s2.source, s2.errors ++ [e], s2.catchErrors⟩, .ok none)
      else (s2, .error e)
    else (s2, .error e)

/-- The wrapper that `CatchProcessorErrors` installs around `scan_`
methods: identical to the process wrapper except for the intercepted
class. -/
def scanWrapped {σ γ : Type} (f : ProcState σ → ProcState σ × Except PyExc γ)
    (s : ProcState σ) : ProcState σ × Except PyExc (Option γ) :=
  match f s with
  | (s2, .ok v) => (s2, .ok (some v))
  | (s2, .error e) =>
    if scanCaught e then
      if s2.catchErrors then
        (⟨s2.readCount, s2.source, s2.errors ++ [e], s2.catchErrors⟩, .ok none)
      else (s2, .error e)
    else (s2, .error e)

/-- Model of the `BaseFileProcessor.collect_errors` context manager: on
entry set the catch flag; run the body (which may call wrapped methods
on the instance); in the finally clause clear the flag and replace the
error set of the instance with a fresh empty set.  The set that the
window yielded is returned alongside the final state: it holds exactly
the errors captured while the window was open. -/
def collectErrorsProc {σ : Type} (body : ProcState σ → ProcState σ) (s : ProcState σ) :
    ProcState σ × List PyExc :=
  let s2 := body ⟨s.readCount, s.source, s.errors, true⟩
  (⟨s2.readCount, s2.source, [], false⟩, s2.errors)

/-- Model of `BaseFileProcessor.load` as written in
src/arugifa/cms/base/processors.py.  When a source is cached it is
returned without touching the reader.  Otherwise the reader runs (the
read counter increments): a read failure (OSError or
UnicodeDecodeError) is wrapped in FileLoadingError, and only the read is
inside the try block, so an exception of the parser constructor, which
runs afterwards, propagates as itself; on success the parsed source is
cached.  The reader is indexed by the invocation number so that
successive reads may differ. -/
def load {σ : Type} (parserCtor : Str → Except PyExc σ) (reader : Nat → Except ReadErr Str)
    (s : ProcState σ) : ProcState σ × Except PyExc σ :=
  match s.source with
  | some v => (s, .ok v)
  | none =>
    match reader s.readCount with
    | .error e =>
      (⟨s.readCount + 1, s.source, s.errors, s.catchErrors⟩, .error (.fileLoadingError e))
    | .ok content =>
      match parserCtor content with
      | .error pe =>
        (⟨s.readCount + 1, s.source, s.errors, s.catchErrors⟩, .error pe)
      | .ok v =>
        (⟨s.readCount + 1, some v, s.errors, s.catchErrors⟩, .ok v)

/-- Answer of an `Except` result being a FileLoadingError. -/
def isFileLoadingRes {σ : Type} : Except PyExc σ → Bool
  | .error (.fileLoadingError _) => true
  | _ => false

/-! ## Source parsers (`BaseSourceParser`, src/arugifa/cms/base/parsers.py) -/

/-- Mutable state of a `BaseSourceParser` instance: the deserialized
source, the error set and the catch flag. -/
structure ParserState (σ : Type) where
  source : σ
  errors : List PyExc
  catchErrors : Bool

/-- Model of `BaseSourceParser.__init__`: deserialize the raw content
(whatever the deserialize hook raises propagates to the caller of the
constructor) and start with an empty error set and catching disabled. -/
def parserInit {σ : Type} (deserialize : Str → Except PyExc σ) (raw : Str) :
    Except PyExc (ParserState σ) :=
  match deserialize raw with
  | .error e => .error e
  | .ok v => .ok ⟨v, [], false⟩

/-- Model of `BaseSourceParser.collect_errors`: same window protocol as
the processor version: set the flag, run the body, then clear the flag
and detach the error set, handing it back while the instance starts over
with an empty one. -/
def collectErrorsParser {σ : Type} (body : ParserState σ → ParserState σ)
    (s : ParserState σ) : ParserState σ × List PyExc :=
  let s2 := body ⟨s.source, s.errors, true⟩
  (⟨s2.source, [], false⟩, s2.errors)

/-- The wrapper that `CatchParserErrors` installs around `parse_`
methods, as written in src/arugifa/cms/base/parsers.py.  Its except
clause names `exceptions.DocumentParsingError`, but the module never
imports `exceptions` (see `parsersModuleNames`), so the moment the
wrapped method raises anything, evaluating the clause raises
NameError: the original exception is neither collected into the error
set (whatever the catch flag says) nor propagated as itself. -/
def parseWrapped {σ γ : Type} (f : ParserState σ → ParserState σ × Except PyExc γ)
    (s : ParserState σ) : ParserState σ × Except PyExc (Option γ) :=
  match f s with
  | (s2, .ok v) => (s2, .ok (some v))
  | (s2, .error _) =>
    if "exceptions" ∈ parsersModuleNames then (s2, .error .attributeError)
    else (s2, .error .nameError)

/-! ## Fuel adequacy and unfolding equations for the regex runner -/

/-- Any two sufficient fuels run a regex to the same answer. -/
theorem reRunF_fuel : ∀ (m f f' : Nat) (full : Bool) (ps : List RPiece) (s : List Char),
    ps.length + s.length = m → m < f → m < f' →
    reRunF f full ps s = reRunF f' full ps s := by
  intro m
  induction m using Nat.strong_induction_on with
  | _ m ih =>
    intro f f' full ps s hm hf hf'
    match f, f', ps, s with
    | f + 1, f' + 1, [], s => rfl
    | f + 1, f' + 1, .once a :: ps, [] => rfl
    | f + 1, f' + 1, .once a :: ps, c :: s =>
      simp only [List.length_cons] at hm
      show (matchAtom a c && reRunF f full ps s) = (matchAtom a c && reRunF f' full ps s)
      rw [ih (ps.length + s.length) (by omega) f f' full ps s rfl (by omega) (by omega)]
    | f + 1, f' + 1, .plus a :: ps, [] => rfl
    | f + 1, f' + 1, .plus a :: ps, c :: s =>
      simp only [List.length_cons] at hm
      show (matchAtom a c && (reRunF f full ps s || reRunF f full (.plus a :: ps) s)) =
        (matchAtom a c && (reRunF f' full ps s || reRunF f' full (.plus a :: ps) s))
      rw [ih (ps.length + s.length) (by omega) f f' full ps s rfl (by omega) (by omega),
        ih (ps.length + 1 + s.length) (by omega) f f' full (.plus a :: ps) s
          (by simp) (by omega) (by omega)]
    | f + 1, f' + 1, .star a :: ps, [] =>
      simp only [List.length_cons, List.length_nil] at hm
      show reRunF f full ps [] = reRunF f' full ps []
      rw [ih (ps.length + [].length) (by simp; omega) f f' full ps [] rfl
        (by simp; omega) (by simp; omega)]
    | f + 1, f' + 1, .star a :: ps, c :: s =>
      simp only [List.length_cons] at hm
      show (reRunF f full ps (c :: s) || (matchAtom a c && reRunF f full (.star a :: ps) s)) =
        (reRunF f' full ps (c :: s) || (matchAtom a c && reRunF f' full (.star a :: ps) s))
      rw [ih (ps.length + (c :: s).length) (by simp; omega) f f' full ps (c :: s) rfl
          (by simp; omega) (by simp; omega),
        ih (ps.length + 1 + s.length) (by omega) f f' full (.star a :: ps) s
          (by simp) (by omega) (by omega)]

/-- Exhausted regex: a prefix run accepts, a full run demands the end of
the string. -/
theorem reRun_nil (full : Bool) (s : List Char) : reRun full [] s = (!full || s.isEmpty) := rfl

/-- A single mandatory atom rejects the empty string. -/
theorem reRun_once_nil (full : Bool) (a : RAtom) (ps : List RPiece) :
    reRun full (.once a :: ps) [] = false := rfl

/-- A single mandatory atom consumes exactly one character. -/
theorem reRun_once_cons (full : Bool) (a : RAtom) (ps : List RPiece) (c : Char) (s : List Char) :
    reRun full (.once a :: ps) (c :: s) = (matchAtom a c && reRun full ps s) := by
  have h := reRunF_fuel (ps.length + s.length) (ps.length + 1 + (s.length + 1))
    (ps.length + s.length + 1) full ps s rfl (by omega) (by omega)
  show (matchAtom a c && reRunF (ps.length + 1 + (s.length + 1)) full ps s) =
    (matchAtom a c && reRunF (ps.length + s.length + 1) full ps s)
  rw [h]

/-- A plus-quantified atom rejects the empty string. -/
theorem reRun_plus_nil (full : Bool) (a : RAtom) (ps : List RPiece) :
    reRun full (.plus a :: ps) [] = false := rfl

/-- A plus-quantified atom consumes one character and then either moves
on or keeps consuming. -/
theorem reRun_plus_cons (full : Bool) (a : RAtom) (ps : List RPiece) (c : Char) (s : List Char) :
    reRun full (.plus a :: ps) (c :: s) =
      (matchAtom a c && (reRun full ps s || reRun full (.plus a :: ps) s)) := by
  have h1 := reRunF_fuel (ps.length + s.length) (ps.length + 1 + (s.length + 1))
    (ps.length + s.length + 1) full ps s rfl (by omega) (by omega)
  have h2 := reRunF_fuel (ps.length + 1 + s.length) (ps.length + 1 + (s.length + 1))
    (ps.length + 1 + s.length + 1) full (.plus a :: ps) s (by simp) (by omega) (by omega)
  show (matchAtom a c && (reRunF (ps.length + 1 + (s.length + 1)) full ps s
      || reRunF (ps.length + 1 + (s.length + 1)) full (.plus a :: ps) s)) =
    (matchAtom a c && (reRunF (ps.length + s.length + 1) full ps s
      || reRunF (ps.length + 1 + s.length + 1) full (.plus a :: ps) s))
  rw [h1, h2]

/-- A star-quantified atom can be skipped on the empty string. -/
theorem reRun_star_nil (full : Bool) (a : RAtom) (ps : List RPiece) :
    reRun full (.star a :: ps) [] = reRun full ps [] := by
  have h := reRunF_fuel (ps.length + ([] : List Char).length) (ps.length + 1 + 0)
    (ps.length + ([] : List Char).length + 1) full ps [] rfl
    (by simp only [List.length_nil]; omega) (by simp only [List.length_nil]; omega)
  show reRunF (ps.length + 1 + 0) full ps [] =
    reRunF (ps.length + ([] : List Char).length + 1) full ps []
  rw [h]

/-- A star-quantified atom either is skipped or consumes a character. -/
theorem reRun_star_cons (full : Bool) (a : RAtom) (ps : List RPiece) (c : Char) (s : List Char) :
    reRun full (.star a :: ps) (c :: s) =
      (reRun full ps (c :: s) || (matchAtom a c && reRun full (.star a :: ps) s)) := by
  have h1 := reRunF_fuel (ps.length + (c :: s).length) (ps.length + 1 + (s.length + 1))
    (ps.length + (c :: s).length + 1) full ps (c :: s) rfl
    (by simp only [List.length_cons]; omega) (by omega)
  have h2 := reRunF_fuel (ps.length + 1 + s.length) (ps.length + 1 + (s.length + 1))
    (ps.length + 1 + s.length + 1) full (.star a :: ps) s (by simp) (by omega) (by omega)
  show (reRunF (ps.length + 1 + (s.length + 1)) full ps (c :: s)
      || (matchAtom a c && reRunF (ps.length + 1 + (s.length + 1)) full (.star a :: ps) s)) =
    (reRunF (ps.length + (c :: s).length + 1) full ps (c :: s)
      || (matchAtom a c && reRunF (ps.length + 1 + s.length + 1) full (.star a :: ps) s))
  rw [h1, h2]

/-! ## Semantic lemmas about matching -/

/-- Matching is anchored at the start only: extending the string to the
right never destroys a match.  This is the formal content of `re.match`
having no end anchor. -/
theorem reMatch_append : ∀ (m : Nat) (ps : List RPiece) (s : List Char),
    ps.length + s.length = m → reMatch ps s = true →
    ∀ t : List Char, reMatch ps (s ++ t) = true := by
  intro m
  induction m using Nat.strong_induction_on with
  | _ m ih =>
    intro ps s hm h t
    match ps, s with
    | [], s => rfl
    | .once a :: ps, [] => rw [reMatch, reRun_once_nil] at h; exact absurd h (by simp)
    | .once a :: ps, c :: s =>
      simp only [List.length_cons] at hm
      rw [reMatch, reRun_once_cons] at h
      rw [List.cons_append, reMatch, reRun_once_cons]
      rcases Bool.and_eq_true_iff.mp h with ⟨h1, h2⟩
      rw [h1, Bool.true_and]
      exact ih (ps.length + s.length) (by omega) ps s rfl h2 t
    | .plus a :: ps, [] => rw [reMatch, reRun_plus_nil] at h; exact absurd h (by simp)
    | .plus a :: ps, c :: s =>
      simp only [List.length_cons] at hm
      rw [reMatch, reRun_plus_cons] at h
      rw [List.cons_append, reMatch, reRun_plus_cons]
      rcases Bool.and_eq_true_iff.mp h with ⟨h1, h2⟩
      rw [h1, Bool.true_and]
      rcases Bool.or_eq_true_iff.mp h2 with h3 | h3
      · have h4 := ih (ps.length + s.length) (by omega) ps s rfl h3 t
        rw [reMatch] at h4
        rw [h4]
        exact Bool.true_or _
      · have h4 := ih (ps.length + 1 + s.length) (by omega) (.plus a :: ps) s (by simp) h3 t
        rw [reMatch] at h4
        rw [h4]
        exact Bool.or_true _
    | .star a :: ps, [] =>
      simp only [List.length_cons, List.length_nil] at hm
      rw [reMatch, reRun_star_nil] at h
      rw [List.nil_append]
      match t with
      | [] => rw [reMatch, reRun_star_nil]; exact h
      | c :: t =>
        rw [reMatch, reRun_star_cons]
        have h4 : reMatch ps ([] ++ (c :: t)) = true :=
          ih (ps.length + 0) (by omega) ps [] (by simp) h (c :: t)
        rw [List.nil_append] at h4
        rw [reMatch] at h4
        rw [h4]
        exact Bool.true_or _
    | .star a :: ps, c :: s =>
      simp only [List.length_cons] at hm
      rw [reMatch, reRun_star_cons] at h
      rw [List.cons_append, reMatch, reRun_star_cons]
      rcases Bool.or_eq_true_iff.mp h with h3 | h3
      · have h4 := ih (ps.length + (c :: s).length) (by simp only [List.length_cons]; omega)
          ps (c :: s) rfl h3 t
        rw [List.cons_append, reMatch] at h4
        rw [h4]
        exact Bool.true_or _
      · rcases Bool.and_eq_true_iff.mp h3 with ⟨h4, h5⟩
        have h6 := ih (ps.length + 1 + s.length) (by omega) (.star a :: ps) s (by simp) h5 t
        rw [reMatch] at h6
        rw [h4, h6]
        simp

/-- Pieces that match a string of literal characters, one by one. -/
def litPieces (l : Str) : List RPiece := l.map (fun c => .once (.lit c))

/-- Language of the empty regex under full matching. -/
theorem reFull_nil_iff (s : Str) : reFull [] s = true ↔ s = [] := by
  rw [reFull, reRun_nil]
  cases s <;> simp

/-- Language of a leading mandatory atom under full matching. -/
theorem reFull_once_iff (a : RAtom) (ps : List RPiece) (s : Str) :
    reFull (.once a :: ps) s = true ↔
      ∃ c t, s = c :: t ∧ matchAtom a c = true ∧ reFull ps t = true := by
  cases s with
  | nil =>
    rw [reFull, reRun_once_nil]
    simp
  | cons c t =>
    rw [reFull, reRun_once_cons]
    constructor
    · intro h
      rcases Bool.and_eq_true_iff.mp h with ⟨h1, h2⟩
      exact ⟨c, t, rfl, h1, h2⟩
    · rintro ⟨c2, t2, heq, h1, h2⟩
      rcases List.cons.injEq c t c2 t2 ▸ heq with ⟨rfl, rfl⟩
      rw [reFull] at h2
      rw [h1, h2]
      rfl

/-- Language of a leading literal character under full matching. -/
theorem reFull_lit_iff (x : Char) (ps : List RPiece) (s : Str) :
    reFull (.once (.lit x) :: ps) s = true ↔ ∃ t, s = x :: t ∧ reFull ps t = true := by
  rw [reFull_once_iff]
  constructor
  · rintro ⟨c, t, rfl, h1, h2⟩
    have : x = c := by simpa [matchAtom] using h1
    exact ⟨t, by rw [this], h2⟩
  · rintro ⟨t, rfl, h2⟩
    exact ⟨x, t, rfl, by simp [matchAtom], h2⟩

/-- Language of a block of literal characters followed by a rest. -/
theorem reFull_lits_iff (l : Str) (ps : List RPiece) :
    ∀ s : Str, reFull (litPieces l ++ ps) s = true ↔ ∃ t, s = l ++ t ∧ reFull ps t = true := by
  induction l with
  | nil =>
    intro s
    simp only [litPieces, List.map_nil, List.nil_append]
    exact ⟨fun h => ⟨s, rfl, h⟩, fun ⟨t, heq, h⟩ => heq ▸ h⟩
  | cons x l ih =>
    intro s
    simp only [litPieces, List.map_cons, List.cons_append]
    rw [show (RPiece.once (.lit x) :: (l.map (fun c => .once (.lit c)) ++ ps)) =
      (.once (.lit x) :: (litPieces l ++ ps)) from rfl, reFull_lit_iff]
    constructor
    · rintro ⟨t, rfl, h⟩
      rcases (ih t).mp h with ⟨t2, rfl, h2⟩
      exact ⟨t2, rfl, h2⟩
    · rintro ⟨t, heq, h⟩
      refine ⟨l ++ t, ?_, (ih (l ++ t)).mpr ⟨t, rfl, h⟩⟩
      rw [heq]

/-- Language of a leading `.+` under full matching: a nonempty block of
non-newline characters, followed by a rest in the language of the
remaining pieces. -/
theorem reFull_plus_dot_iff (ps : List RPiece) :
    ∀ s : Str, reFull (.plus .dot :: ps) s = true ↔
      ∃ u t, s = u ++ t ∧ u ≠ [] ∧ (∀ c ∈ u, c ≠ '\n') ∧ reFull ps t = true := by
  intro s
  induction s with
  | nil =>
    rw [reFull, reRun_plus_nil]
    constructor
    · intro h
      exact absurd h (by simp)
    · rintro ⟨u, t, heq, hne, _, _⟩
      rcases List.append_eq_nil.mp heq.symm with ⟨rfl, rfl⟩
      exact absurd rfl hne
  | cons c s ih =>
    rw [reFull, reRun_plus_cons]
    constructor
    · intro h
      rcases Bool.and_eq_true_iff.mp h with ⟨h1, h2⟩
      have hc : c ≠ '\n' := by simpa [matchAtom] using h1
      rcases Bool.or_eq_true_iff.mp h2 with h3 | h3
      · exact ⟨[c], s, rfl, by simp, by simpa using hc, h3⟩
      · rcases ih.mp h3 with ⟨u, t, rfl, hne, hnl, hfull⟩
        refine ⟨c :: u, t, rfl, by simp, ?_, hfull⟩
        intro x hx
        rcases List.mem_cons.mp hx with rfl | hx
        · exact hc
        · exact hnl x hx
    · rintro ⟨u, t, heq, hne, hnl, hfull⟩
      match u, heq with
      | c2 :: u, heq =>
        rw [List.cons_append] at heq
        rcases List.cons.injEq c s c2 (u ++ t) ▸ heq with ⟨rfl, rfl⟩
        have hc : matchAtom .dot c = true := by
          simp [matchAtom]
          exact hnl c (by simp)
        rw [hc, Bool.true_and]
        match u with
        | [] =>
          rw [List.nil_append]
          rw [reFull] at hfull
          rw [hfull]
          exact Bool.true_or _
        | c3 :: u =>
          have h4 : reFull (.plus .dot :: ps) ((c3 :: u) ++ t) = true := by
            refine ih.mpr ⟨c3 :: u, t, rfl, by simp, ?_, hfull⟩
            intro x hx
            exact hnl x (List.mem_cons_of_mem _ hx)
          rw [reFull] at h4
          rw [h4]
          exact Bool.or_true _

/-! ## Lemmas about the glob-to-regex translation -/

/-- Unfolding equation for the regex parser on a single character. -/
theorem parseRegexL_one (c : Char) :
    parseRegexL [c] =
      (if c = '\\' then [.once (.lit '\\')]
       else if c = '.' then [.once .dot]
       else [.once (.lit c)]) := rfl

/-- Unfolding equation for the regex parser on two characters. -/
theorem parseRegexL_two (c c2 : Char) :
    parseRegexL [c, c2] =
      (if c = '\\' then [.once (.lit c2)]
       else if c2 = '+' then [.plus (mkAtom c)]
       else if c2 = '*' then [.star (mkAtom c)]
       else .once (mkAtom c) :: parseRegexL [c2]) := rfl

/-- Unfolding equation for the regex parser on three or more
characters. -/
theorem parseRegexL_cons3 (c c2 c3 : Char) (rest : Str) :
    parseRegexL (c :: c2 :: c3 :: rest) =
      (if c = '\\' then
        if c3 = '+' then .plus (.lit c2) :: parseRegexL rest
        else if c3 = '*' then .star (.lit c2) :: parseRegexL rest
        else .once (.lit c2) :: parseRegexL (c3 :: rest)
      else
        if c2 = '+' then .plus (mkAtom c) :: parseRegexL (c3 :: rest)
        else if c2 = '*' then .star (mkAtom c) :: parseRegexL (c3 :: rest)
        else .once (mkAtom c) :: parseRegexL (c2 :: c3 :: rest)) := rfl

/-- Characters that the regex parser treats as plain literals with no
look-ahead effects: anything but the backslash, the dot and the two
quantifiers. -/
def parsePlainChar (c : Char) : Prop := c ≠ '\\' ∧ c ≠ '.' ∧ c ≠ '+' ∧ c ≠ '*'

instance (c : Char) : Decidable (parsePlainChar c) := by
  unfold parsePlainChar
  infer_instance

/-- The atom of a plain character that is not a dot is its literal. -/
theorem mkAtom_plain (c : Char) (hc : parsePlainChar c) : mkAtom c = RAtom.lit c := by
  rw [mkAtom, if_neg hc.2.1]

/-- A string of plain characters parses to the matching literal pieces. -/
theorem parseRegexL_plain : ∀ l : Str, (∀ c ∈ l, parsePlainChar c) →
    parseRegexL l = litPieces l := by
  intro l
  induction l with
  | nil => intro _; rfl
  | cons c l ih =>
    intro h
    have hc := h c (by simp)
    have ihtail := ih (fun x hx => h x (List.mem_cons_of_mem c hx))
    match l with
    | [] =>
      rw [parseRegexL_one, if_neg hc.1, if_neg hc.2.1]
      rfl
    | [c2] =>
      have hc2 := h c2 (by simp)
      rw [parseRegexL_two, if_neg hc.1, if_neg hc2.2.2.1, if_neg hc2.2.2.2,
        mkAtom_plain c hc, ihtail]
      rfl
    | c2 :: c3 :: l3 =>
      have hc2 := h c2 (by simp)
      rw [parseRegexL_cons3, if_neg hc.1, if_neg hc2.2.2.1, if_neg hc2.2.2.2,
        mkAtom_plain c hc, ihtail]
      rfl

/-- Plain characters parse to literal pieces in front of any suffix whose
first character is not a quantifier. -/
theorem parseRegexL_append_plain : ∀ (l r : Str), (∀ c ∈ l, parsePlainChar c) →
    (∀ c2, r.head? = some c2 → c2 ≠ '+' ∧ c2 ≠ '*') →
    parseRegexL (l ++ r) = litPieces l ++ parseRegexL r := by
  intro l
  induction l with
  | nil =>
    intro r _ _
    rfl
  | cons c l ih =>
    intro r h hr
    have hc := h c (by simp)
    have ihr := ih r (fun x hx => h x (List.mem_cons_of_mem c hx)) hr
    match l with
    | [] =>
      match r with
      | [] =>
        show parseRegexL [c] = litPieces [c] ++ parseRegexL []
        rw [parseRegexL_one, if_neg hc.1, if_neg hc.2.1]
        rfl
      | [c2] =>
        have hq := hr c2 (by rw [List.head?_cons])
        show parseRegexL [c, c2] = litPieces [c] ++ parseRegexL [c2]
        rw [parseRegexL_two, if_neg hc.1, if_neg hq.1, if_neg hq.2, mkAtom_plain c hc]
        rfl
      | c2 :: c3 :: r3 =>
        have hq := hr c2 (by rw [List.head?_cons])
        show parseRegexL (c :: c2 :: c3 :: r3) = litPieces [c] ++ parseRegexL (c2 :: c3 :: r3)
        rw [parseRegexL_cons3, if_neg hc.1, if_neg hq.1, if_neg hq.2, mkAtom_plain c hc]
        rfl
    | [c2] =>
      have hc2 := h c2 (by simp)
      match r with
      | [] =>
        show parseRegexL [c, c2] = litPieces [c, c2] ++ parseRegexL []
        rw [parseRegexL_two, if_neg hc.1, if_neg hc2.2.2.1, if_neg hc2.2.2.2,
          mkAtom_plain c hc]
        have h2 : parseRegexL [c2] = litPieces [c2] :=
          parseRegexL_plain [c2] (by
            intro x hx
            simp only [List.mem_singleton] at hx
            rw [hx]
            exact hc2)
        rw [h2]
        rfl
      | cr :: r2 =>
        show parseRegexL (c :: c2 :: cr :: r2) = litPieces [c, c2] ++ parseRegexL (cr :: r2)
        rw [parseRegexL_cons3, if_neg hc.1, if_neg hc2.2.2.1, if_neg hc2.2.2.2,
          mkAtom_plain c hc]
        have ihr2 : parseRegexL (c2 :: cr :: r2) = litPieces [c2] ++ parseRegexL (cr :: r2) := ihr
        rw [ihr2]
        rfl
    | c2 :: c3 :: l3 =>
      have hc2 := h c2 (by simp)
      show parseRegexL (c :: c2 :: c3 :: (l3 ++ r)) =
        litPieces (c :: c2 :: c3 :: l3) ++ parseRegexL r
      rw [parseRegexL_cons3, if_neg hc.1, if_neg hc2.2.2.1, if_neg hc2.2.2.2,
        mkAtom_plain c hc]
      rw [show (c2 :: c3 :: (l3 ++ r)) = ((c2 :: c3 :: l3) ++ r) from rfl, ihr]
      rfl

/-- Parsing the translated canonical pattern: plain directory characters,
then slash, one-or-more-dots, slash, one-or-more-dots, a literal dot and
the plain extension characters. -/
theorem parse_canonical (d e : Str) (hd : ∀ c ∈ d, parsePlainChar c)
    (he : ∀ c ∈ e, parsePlainChar c) :
    parseRegexL (d ++ '/' :: '.' :: '+' :: '/' :: '.' :: '+' :: '\\' :: '.' :: e) =
      litPieces d ++ .once (.lit '/') :: .plus .dot :: .once (.lit '/') :: .plus .dot ::
        .once (.lit '.') :: litPieces e := by
  have hrest : parseRegexL ('/' :: '.' :: '+' :: '/' :: '.' :: '+' :: '\\' :: '.' :: e) =
      .once (.lit '/') :: .plus .dot :: .once (.lit '/') :: .plus .dot ::
        .once (.lit '.') :: litPieces e := by
    match e with
    | [] => decide
    | [c3] =>
      have hc3 := he c3 (by simp)
      show RPiece.once (.lit '/') :: .plus .dot :: .once (.lit '/') :: .plus .dot ::
        parseRegexL ['\\', '.', c3] = _
      rw [parseRegexL_cons3, if_pos rfl, if_neg hc3.2.2.1, if_neg hc3.2.2.2,
        parseRegexL_plain [c3] (by
          intro x hx
          simp only [List.mem_singleton] at hx
          rw [hx]
          exact hc3)]
    | c3 :: c4 :: e3 =>
      have hc3 := he c3 (by simp)
      show RPiece.once (.lit '/') :: .plus .dot :: .once (.lit '/') :: .plus .dot ::
        parseRegexL ('\\' :: '.' :: c3 :: c4 :: e3) = _
      rw [parseRegexL_cons3, if_pos rfl, if_neg hc3.2.2.1, if_neg hc3.2.2.2,
        parseRegexL_plain (c3 :: c4 :: e3) he]
  rw [parseRegexL_append_plain d _ hd (fun c2 hc2 => by
    rw [List.head?_cons, Option.some.injEq] at hc2
    rw [← hc2]
    exact ⟨by decide, by decide⟩), hrest]

/-- Unfolding equation for the double-star rewrite on two or more
characters. -/
theorem subDoubleStar_cons2 (c c2 : Char) (rest : Str) :
    subDoubleStar (c :: c2 :: rest) =
      (if c = '*' ∧ c2 = '*' then '.' :: '+' :: subDoubleStar rest
       else c :: subDoubleStar (c2 :: rest)) := rfl

/-- The double-star rewrite copies any character that is not a star. -/
theorem subDoubleStar_cons (c : Char) (rest : Str) (hc : c ≠ '*') :
    subDoubleStar (c :: rest) = c :: subDoubleStar rest := by
  match rest with
  | [] => rfl
  | c2 :: r => rw [subDoubleStar_cons2, if_neg (fun h => hc h.1)]

/-- The double-star rewrite fires on a double star. -/
theorem subDoubleStar_fire (rest : Str) :
    subDoubleStar ('*' :: '*' :: rest) = '.' :: '+' :: subDoubleStar rest := by
  rw [subDoubleStar_cons2, if_pos ⟨rfl, rfl⟩]

/-- The double-star rewrite leaves a star-free prefix alone. -/
theorem subDoubleStar_append (l r : Str) (h : ∀ c ∈ l, c ≠ '*') :
    subDoubleStar (l ++ r) = l ++ subDoubleStar r := by
  induction l with
  | nil => rfl
  | cons c l ih =>
    rw [List.cons_append, subDoubleStar_cons c (l ++ r) (h c (by simp)),
      ih (fun x hx => h x (List.mem_cons_of_mem c hx))]
    rfl

/-- The double-star rewrite fixes star-free strings. -/
theorem subDoubleStar_id (l : Str) (h : ∀ c ∈ l, c ≠ '*') : subDoubleStar l = l := by
  have h2 := subDoubleStar_append l [] h
  rw [List.append_nil] at h2
  have h3 : subDoubleStar ([] : Str) = [] := rfl
  rw [h3, List.append_nil] at h2
  exact h2

/-- Unfolding equation for the filename-wildcard scanner in scan mode on
three or more characters. -/
theorem subStarDotGo_cons3 (c c2 c3 : Char) (rest : Str) :
    subStarDotGo false (c :: c2 :: c3 :: rest) =
      (if c = '*' ∧ c2 = '.' ∧ c3 ≠ '\n' then
        '.' :: '+' :: '\\' :: '.' :: c3 :: subStarDotGo true rest
      else c :: subStarDotGo false (c2 :: c3 :: rest)) := rfl

/-- Unfolding equation for the filename-wildcard scanner in copy mode. -/
theorem subStarDotGo_true_cons (c : Char) (rest : Str) :
    subStarDotGo true (c :: rest) =
      (if c = '\n' then c :: subStarDotGo false rest
       else c :: subStarDotGo true rest) := rfl

/-- The filename-wildcard scanner copies any character that is not a
star. -/
theorem subStarDotGo_false_cons (c : Char) (rest : Str) (hc : c ≠ '*') :
    subStarDotGo false (c :: rest) = c :: subStarDotGo false rest := by
  match rest with
  | [] => rfl
  | [x] => rfl
  | x :: y :: r => rw [subStarDotGo_cons3, if_neg (fun h => hc h.1)]

/-- The filename-wildcard scanner leaves a star-free prefix alone. -/
theorem subStarDotGo_false_append (l r : Str) (h : ∀ c ∈ l, c ≠ '*') :
    subStarDotGo false (l ++ r) = l ++ subStarDotGo false r := by
  induction l with
  | nil => rfl
  | cons c l ih =>
    rw [List.cons_append, subStarDotGo_false_cons c (l ++ r) (h c (by simp)),
      ih (fun x hx => h x (List.mem_cons_of_mem c hx))]
    rfl

/-- The filename-wildcard rewrite fires on star-dot followed by a
non-newline character. -/
theorem subStarDotGo_fire (c3 : Char) (rest : Str) (h : c3 ≠ '\n') :
    subStarDotGo false ('*' :: '.' :: c3 :: rest) =
      '.' :: '+' :: '\\' :: '.' :: c3 :: subStarDotGo true rest := by
  rw [subStarDotGo_cons3, if_pos ⟨rfl, rfl, h⟩]

/-- The capture-copying mode of the scanner copies newline-free text. -/
theorem subStarDotGo_true_id (l : Str) (h : ∀ c ∈ l, c ≠ '\n') :
    subStarDotGo true l = l := by
  induction l with
  | nil => rfl
  | cons c l ih =>
    rw [subStarDotGo_true_cons, if_neg (h c (by simp)),
      ih (fun x hx => h x (List.mem_cons_of_mem c hx))]

/-- Glob translation of the canonical two-wildcard pattern: for a
star-free directory part and a nonempty, star-free, newline-free
extension, the directory wildcard becomes `.+` between the slashes and
the filename wildcard becomes `.+` followed by an escaped dot, exactly
the two rewrites the spec describes. -/
theorem globToRegex_canonical (d : Str) (c3 : Char) (e2 : Str)
    (hd : ∀ c ∈ d, c ≠ '*') (hc3 : c3 ≠ '\n')
    (he : ∀ c ∈ c3 :: e2, c ≠ '*') (hn : ∀ c ∈ c3 :: e2, c ≠ '\n') :
    globToRegexL (d ++ '/' :: '*' :: '*' :: '/' :: '*' :: '.' :: c3 :: e2) =
      d ++ '/' :: '.' :: '+' :: '/' :: '.' :: '+' :: '\\' :: '.' :: c3 :: e2 := by
  rw [globToRegexL]
  rw [show d ++ '/' :: '*' :: '*' :: '/' :: '*' :: '.' :: c3 :: e2 =
    (d ++ ['/']) ++ '*' :: '*' :: '/' :: '*' :: '.' :: c3 :: e2 from by simp]
  rw [subDoubleStar_append (d ++ ['/']) _ (by
    intro x hx
    rcases List.mem_append.mp hx with hx | hx
    · exact hd x hx
    · simp only [List.mem_singleton] at hx
      rw [hx]
      decide)]
  rw [subDoubleStar_fire]
  rw [subDoubleStar_cons '/' _ (by decide)]
  rw [subDoubleStar_cons2 '*' '.' _]
  rw [if_neg (by decide)]
  rw [subDoubleStar_cons '.' _ (by decide)]
  rw [subDoubleStar_id (c3 :: e2) he]
  rw [subStarDotL]
  rw [show (d ++ ['/']) ++ '.' :: '+' :: '/' :: '*' :: '.' :: c3 :: e2 =
    (d ++ ['/', '.', '+', '/']) ++ '*' :: '.' :: c3 :: e2 from by simp]
  rw [subStarDotGo_false_append (d ++ ['/', '.', '+', '/']) _ (by
    intro x hx
    rcases List.mem_append.mp hx with hx | hx
    · exact hd x hx
    · fin_cases hx <;> decide)]
  rw [subStarDotGo_fire c3 e2 hc3]
  rw [subStarDotGo_true_id e2 (fun x hx => hn x (List.mem_cons_of_mem c3 hx))]
  simp

/-- Glob translation of the plain filename-wildcard pattern: for a
star-free directory part and a nonempty, star-free, newline-free
extension, the filename wildcard becomes `.+` followed by an escaped
dot. -/
theorem globToRegex_star_dot (d : Str) (c3 : Char) (e2 : Str)
    (hd : ∀ c ∈ d, c ≠ '*') (hc3 : c3 ≠ '\n')
    (he : ∀ c ∈ c3 :: e2, c ≠ '*') (hn : ∀ c ∈ c3 :: e2, c ≠ '\n') :
    globToRegexL (d ++ '*' :: '.' :: c3 :: e2) = d ++ '.' :: '+' :: '\\' :: '.' :: c3 :: e2 := by
  rw [globToRegexL]
  rw [subDoubleStar_append d _ hd]
  rw [subDoubleStar_cons2 '*' '.' _]
  rw [if_neg (by decide)]
  rw [subDoubleStar_cons '.' _ (by decide)]
  rw [subDoubleStar_id (c3 :: e2) he]
  rw [subStarDotL]
  rw [subStarDotGo_false_append d _ hd]
  rw [subStarDotGo_fire c3 e2 hc3]
  rw [subStarDotGo_true_id e2 (fun x hx => hn x (List.mem_cons_of_mem c3 hx))]

/-- Language of a pure block of literals: exactly that string. -/
theorem reFull_lits_only (l s : Str) : reFull (litPieces l) s = true ↔ s = l := by
  have h := reFull_lits_iff l [] s
  rw [List.append_nil] at h
  rw [h]
  constructor
  · rintro ⟨t, rfl, ht⟩
    rw [reFull_nil_iff] at ht
    rw [ht]
    simp
  · rintro rfl
    exact ⟨[], by simp, (reFull_nil_iff []).mpr rfl⟩

/-- Language of the translated canonical pattern, under full matching: a
string belongs to it exactly when it is the directory part, a slash, a
nonempty newline-free block (which, between the two slashes of a
slash-separated path string, spans one or more whole path segments), a
slash, a nonempty newline-free block, a literal dot and the extension.
This makes precise what the two wildcard translations match. -/
theorem reFull_canonical_iff (d e s : Str) (hd : ∀ c ∈ d, parsePlainChar c)
    (he : ∀ c ∈ e, parsePlainChar c) :
    reFull (parseRegexL (d ++ '/' :: '.' :: '+' :: '/' :: '.' :: '+' :: '\\' :: '.' :: e)) s
        = true ↔
      ∃ A B, s = d ++ '/' :: (A ++ '/' :: (B ++ '.' :: e)) ∧ A ≠ [] ∧ B ≠ [] ∧
        (∀ c ∈ A, c ≠ '\n') ∧ (∀ c ∈ B, c ≠ '\n') := by
  rw [parse_canonical d e hd he]
  constructor
  · intro h0
    obtain ⟨t, ht, h1⟩ := (reFull_lits_iff d (RPiece.once (.lit '/') :: .plus .dot ::
      .once (.lit '/') :: .plus .dot :: .once (.lit '.') :: litPieces e) s).mp h0
    obtain ⟨t1, ht1, h2⟩ := (reFull_lit_iff '/' (RPiece.plus .dot :: .once (.lit '/') ::
      .plus .dot :: .once (.lit '.') :: litPieces e) t).mp h1
    obtain ⟨A, t2, ht2, hA, hAn, h3⟩ := (reFull_plus_dot_iff (RPiece.once (.lit '/') ::
      .plus .dot :: .once (.lit '.') :: litPieces e) t1).mp h2
    obtain ⟨t3, ht3, h4⟩ := (reFull_lit_iff '/' (RPiece.plus .dot :: .once (.lit '.') ::
      litPieces e) t2).mp h3
    obtain ⟨B, t4, ht4, hB, hBn, h5⟩ :=
      (reFull_plus_dot_iff (RPiece.once (.lit '.') :: litPieces e) t3).mp h4
    obtain ⟨t5, ht5, h6⟩ := (reFull_lit_iff '.' (litPieces e) t4).mp h5
    rw [reFull_lits_only e t5] at h6
    subst h6 ht5 ht4 ht3 ht2 ht1 ht
    exact ⟨A, B, by simp, hA, hB, hAn, hBn⟩
  · rintro ⟨A, B, rfl, hA, hB, hAn, hBn⟩
    refine (reFull_lits_iff d _ _).mpr ⟨'/' :: (A ++ '/' :: (B ++ '.' :: e)), rfl, ?_⟩
    refine (reFull_lit_iff '/' _ _).mpr ⟨A ++ '/' :: (B ++ '.' :: e), rfl, ?_⟩
    refine (reFull_plus_dot_iff _ _).mpr ⟨A, '/' :: (B ++ '.' :: e), rfl, hA, hAn, ?_⟩
    refine (reFull_lit_iff '/' _ _).mpr ⟨B ++ '.' :: e, rfl, ?_⟩
    refine (reFull_plus_dot_iff _ _).mpr ⟨B, '.' :: e, rfl, hB, hBn, ?_⟩
    refine (reFull_lit_iff '.' _ _).mpr ⟨e, rfl, ?_⟩
    exact (reFull_lits_only e e).mpr rfl

/-- Language of the translated filename-wildcard regex, under full
matching: a nonempty newline-free stem, a literal dot and the
extension — any filename carrying that fixed extension. -/
theorem reFull_star_dot_iff (e s : Str) (he : ∀ c ∈ e, parsePlainChar c) :
    reFull (parseRegexL ('.' :: '+' :: '\\' :: '.' :: e)) s = true ↔
      ∃ B, s = B ++ '.' :: e ∧ B ≠ [] ∧ (∀ c ∈ B, c ≠ '\n') := by
  have hp : parseRegexL ('.' :: '+' :: '\\' :: '.' :: e) =
      RPiece.plus .dot :: .once (.lit '.') :: litPieces e := by
    match e with
    | [] => decide
    | [c3] =>
      have hc3 := he c3 (by simp)
      show RPiece.plus .dot :: parseRegexL ['\\', '.', c3] = _
      rw [parseRegexL_cons3, if_pos rfl, if_neg hc3.2.2.1, if_neg hc3.2.2.2,
        parseRegexL_plain [c3] (by
          intro x hx
          simp only [List.mem_singleton] at hx
          rw [hx]
          exact hc3)]
    | c3 :: c4 :: e3 =>
      have hc3 := he c3 (by simp)
      show RPiece.plus .dot :: parseRegexL ('\\' :: '.' :: c3 :: c4 :: e3) = _
      rw [parseRegexL_cons3, if_pos rfl, if_neg hc3.2.2.1, if_neg hc3.2.2.2,
        parseRegexL_plain (c3 :: c4 :: e3) he]
  rw [hp]
  constructor
  · intro h0
    obtain ⟨B, t, ht, hB, hBn, h1⟩ :=
      (reFull_plus_dot_iff (RPiece.once (.lit '.') :: litPieces e) s).mp h0
    obtain ⟨t2, ht2, h2⟩ := (reFull_lit_iff '.' (litPieces e) t).mp h1
    rw [reFull_lits_only e t2] at h2
    subst h2 ht2 ht
    exact ⟨B, rfl, hB, hBn⟩
  · rintro ⟨B, rfl, hB, hBn⟩
    refine (reFull_plus_dot_iff _ _).mpr ⟨B, '.' :: e, rfl, hB, hBn, ?_⟩
    refine (reFull_lit_iff '.' _ _).mpr ⟨e, rfl, ?_⟩
    exact (reFull_lits_only e e).mpr rfl

/-! ## Path strings -/

/-- Unfolding equation of the path rendering on a path of at least two
segments. -/
theorem interSlash_cons (s : Str) (r : Str) (rest : List Str) :
    interSlash (s :: r :: rest) = s ++ '/' :: interSlash (r :: rest) := rfl

/-- Path rendering of a concatenation of two nonempty segment lists. -/
theorem interSlash_append (xs ys : List Str) (hx : xs ≠ []) (hy : ys ≠ []) :
    interSlash (xs ++ ys) = interSlash xs ++ '/' :: interSlash ys := by
  induction xs with
  | nil => exact absurd rfl hx
  | cons x xs ih =>
    match xs with
    | [] =>
      match ys with
      | y :: ys2 => rfl
    | x2 :: xs2 =>
      rw [show ((x :: x2 :: xs2) ++ ys) = (x :: ((x2 :: xs2) ++ ys)) from rfl]
      match ys with
      | y :: ys2 =>
        rw [show ((x2 :: xs2) ++ y :: ys2) = (x2 :: (xs2 ++ y :: ys2)) from rfl]
        rw [interSlash_cons x x2 (xs2 ++ y :: ys2)]
        rw [show (x2 :: (xs2 ++ y :: ys2)) = ((x2 :: xs2) ++ y :: ys2) from rfl]
        rw [ih (by simp)]
        rw [interSlash_cons x x2 xs2]
        simp

/-- A rendered path with a nonempty head segment is nonempty. -/
theorem interSlash_ne_nil (segs : List Str) (h1 : segs ≠ []) (h2 : ∀ s ∈ segs, s ≠ []) :
    interSlash segs ≠ [] := by
  match segs with
  | [s] =>
    have := h2 s (by simp)
    simpa [interSlash] using this
  | s :: r :: rest =>
    rw [interSlash_cons]
    intro hcon
    rcases List.append_eq_nil.mp hcon with ⟨_, h4⟩
    exact absurd h4 (by simp)

/-- A rendered path of newline-free segments is newline-free. -/
theorem interSlash_noNL (segs : List Str) (h : ∀ s ∈ segs, ∀ c ∈ s, c ≠ '\n') :
    ∀ c ∈ interSlash segs, c ≠ '\n' := by
  induction segs with
  | nil => intro c hc; simp [interSlash] at hc
  | cons s rest ih =>
    match rest with
    | [] =>
      intro c hc
      exact h s (by simp) c (by simpa [interSlash] using hc)
    | r :: rest2 =>
      rw [interSlash_cons]
      intro c hc
      rcases List.mem_append.mp hc with hc | hc
      · exact h s (by simp) c hc
      · rcases List.mem_cons.mp hc with rfl | hc
        · decide
        · exact ih (fun x hx => h x (List.mem_cons_of_mem s hx)) c hc

/-! ## A helper about ordered lookup -/

/-- Scanning an ordered registry whose leading entries all fail the test
starts effectively at the tail. -/
theorem find?_append_none {α : Type} (p : α → Bool) (l1 l2 : List α)
    (h : ∀ x ∈ l1, p x = false) : (l1 ++ l2).find? p = l2.find? p := by
  induction l1 with
  | nil => rfl
  | cons x l ih =>
    rw [List.cons_append, List.find?_cons_of_neg _ (by simp [h x (by simp)]),
      ih (fun y hy => h y (List.mem_cons_of_mem x hy))]

/-! ## Unfolding lemmas for the per-item loop step -/

/-- A successful item in front of a loop that also succeeded. -/
theorem runItem_ok {γ : Type} (src : SrcPath) (caught : PyExc → Bool) (tr : List OpCall)
    (c : γ) (tr2 : List OpCall) (res : List (SrcPath × γ)) (errs : List (SrcPath × PyExc)) :
    runItem src caught (tr, .ok c) (tr2, .ok (res, errs)) =
      (tr ++ tr2, .ok ((src, c) :: res, errs)) := rfl

/-- A failing item in front of a loop that succeeded. -/
theorem runItem_error_ok_eq {γ : Type} (src : SrcPath) (caught : PyExc → Bool) (e : PyExc)
    (tr tr2 : List OpCall) (res : List (SrcPath × γ)) (errs : List (SrcPath × PyExc)) :
    runItem src caught (tr, .error e) (tr2, .ok (res, errs)) =
      (if caught e then (tr ++ tr2, .ok (res, (src, e) :: errs)) else (tr, .error e)) := rfl

/-- A failing item in front of a loop that aborted. -/
theorem runItem_error_err_eq {γ : Type} (src : SrcPath) (caught : PyExc → Bool) (e : PyExc)
    (tr tr2 : List OpCall) (e2 : PyExc) :
    runItem (γ := γ) src caught (tr, .error e) (tr2, .error e2) =
      (if caught e then (tr ++ tr2, .error e2) else (tr, .error e)) := rfl

/-- An uncaught exception aborts the loop whatever the rest would have
done: nothing of the rest is kept. -/
theorem runItem_uncaught {γ : Type} (src : SrcPath) (caught : PyExc → Bool) (e : PyExc)
    (tr : List OpCall)
    (rest : List OpCall × Except PyExc (List (SrcPath × γ) × List (SrcPath × PyExc)))
    (h : caught e = false) :
    runItem src caught (tr, .error e) rest = (tr, .error e) := by
  rcases rest with ⟨tr2, rr⟩
  match rr with
  | .ok (res, errs) =>
    rw [runItem_error_ok_eq, if_neg (by rw [h]; exact Bool.false_ne_true)]
  | .error e2 =>
    rw [runItem_error_err_eq, if_neg (by rw [h]; exact Bool.false_ne_true)]

/-- Resolution against an empty registry fails with HandlerNotFound for
every relative path. -/
theorem get_handler_empty (root : List Str) (p : SrcPath) (h : p.absolute = false) :
    get_handler ⟨root, []⟩ p = .error (.handlerNotFound p) := by
  unfold get_handler relOf
  rw [h]
  rfl

/-- Against an empty registry, `add_content` attempts every relative
path, captures a HandlerNotFound error for each of them in order, and
returns no result and an empty trace. -/
theorem add_content_empty_registry {γ : Type} (root : List Str) (ops : HandlerOps γ) :
    ∀ srcs : List SrcPath, (∀ s ∈ srcs, s.absolute = false) →
      add_content ⟨root, []⟩ ops srcs =
        ([], .ok ([], srcs.map (fun s => (s, PyExc.handlerNotFound s)))) := by
  intro srcs
  induction srcs with
  | nil => intro _; rfl
  | cons s rest ih =>
    intro h
    show runItem s addCaught (managerAdd ⟨root, []⟩ ops s) (add_content ⟨root, []⟩ ops rest) = _
    have h1 : managerAdd ⟨root, []⟩ ops s = ([], .error (.handlerNotFound s)) := by
      unfold managerAdd
      rw [get_handler_empty root s (h s (by simp))]
    rw [h1, ih (fun x hx => h x (List.mem_cons_of_mem s hx)), runItem_error_ok_eq,
      if_pos (show addCaught (PyExc.handlerNotFound s) = true from rfl)]
    simp

/-! ## Concrete fixtures

They mirror the dummy registry of the test suite: text and html files
under the dummy directory, handled by two different handler classes. -/

def patTxt : Str := toL "dummy/*.txt"

def patHtml : Str := toL "dummy/*.html"

def patTxtBak : Str := toL "dummy/*.txt.bak"

def cmEx : ContentManager :=
  ⟨[toL "repo"], [(patTxt, "DummyHandler"), (patHtml, "AnotherDummyHandler")]⟩

def cmDummy : ContentManager := ⟨[toL "repo"], [(patTxt, "DummyHandler")]⟩

def cmShadow : ContentManager :=
  ⟨[toL "repo"], [(patTxt, "DummyHandler"), (patTxtBak, "BakHandler")]⟩

def cmEmpty : ContentManager := ⟨[toL "repo"], []⟩

def relTxt : SrcPath := ⟨false, [toL "dummy", toL "handler.txt"]⟩

def srcTxt : SrcPath := ⟨false, [toL "dummy", toL "src.txt"]⟩

def dstHtml : SrcPath := ⟨false, [toL "dummy", toL "dst.html"]⟩

def bakPath : SrcPath := ⟨false, [toL "dummy", toL "a.txt.bak"]⟩

def aTxt : SrcPath := ⟨false, [toL "a.txt"]⟩

def opsOk : HandlerOps String :=
  ⟨fun _ _ => .ok "record", fun _ _ => .ok "record", fun _ _ _ => .ok (), fun _ _ => .ok ()⟩

/-! ## The claims -/

/-- C10: any two HandlerNotFound instances compare equal under the
`__eq__` that the class defines, whichever paths the two exceptions were
raised for: the comparison looks only at the classes, so in an
aggregated path-to-error mapping or error set the HandlerNotFound
entries of different paths are indistinguishable by equality. -/
theorem C10_handler_not_found_equality (p q : SrcPath) :
    handlerNotFoundEq (.handlerNotFound p) (.handlerNotFound q) = true := rfl

/-- C9 counterexample to the claim as stated: the claim says that for
every registered pattern, any path whose string has a matching prefix
resolves to that pattern's handler.  With the registry holding the
pattern for text files first and a pattern for .txt.bak files second,
the path dummy/a.txt.bak is matched by its own second pattern, yet
resolution returns the first handler, because the earlier text-file
pattern already matches a prefix of the path string. -/
theorem C9_counterexample :
    globMatchB patTxtBak (interSlash bakPath.segments) = true ∧
    get_handler cmShadow bakPath = .ok ⟨"DummyHandler", bakPath⟩ ∧
    "DummyHandler" ≠ "BakHandler" := ⟨by decide, rfl, by decide⟩

/-- C9 (amended): the match test of handler resolution is anchored at
the start of the path string only, so extending a matched string never
destroys the match; consequently any path whose string extends a string
matched by some registered pattern resolves to a handler (the first
matching pattern's one) rather than failing with HandlerNotFound; in
particular with only the pattern dummy/*.txt registered, the path
dummy/a.txt.bak resolves to that handler. -/
theorem C9_prefix_matching :
    (∀ (ps : List RPiece) (s t : List Char), reMatch ps s = true → reMatch ps (s ++ t) = true) ∧
    (∀ (cm : ContentManager) (p : SrcPath) (rel : List Str) (u v : Str) (gh : Str × String),
      relOf cm p = some rel → interSlash rel = u ++ v → gh ∈ cm.handlers →
      globMatchB gh.1 u = true → ∃ h : Handler, get_handler cm p = .ok h) ∧
    get_handler cmDummy bakPath = .ok ⟨"DummyHandler", bakPath⟩ := by
  refine ⟨?_, ?_, rfl⟩
  · intro ps s t h
    exact reMatch_append (ps.length + s.length) ps s rfl h t
  · intro cm p rel u v gh hrel heq hmem hmatch
    have h2 : globMatchB gh.1 (interSlash rel) = true := by
      rw [globMatchB, heq]
      exact reMatch_append (((parseRegexL (globToRegexL gh.1))).length + u.length)
        (parseRegexL (globToRegexL gh.1)) u rfl hmatch v
    have h3 : (cm.handlers.find? (fun g => globMatchB g.1 (interSlash rel))).isSome := by
      rw [List.find?_isSome]
      exact ⟨gh, hmem, h2⟩
    obtain ⟨g2, hg2⟩ := Option.isSome_iff_exists.mp h3
    unfold get_handler
    split
    · next heq =>
      rw [hrel] at heq
      exact absurd heq (by simp)
    · next rel2 heq =>
      rw [hrel] at heq
      injection heq with heq2
      subst heq2
      rw [hg2]
      exact ⟨⟨g2.2, p⟩, rfl⟩

/-- C9 witness: the prefix-extension conjunct applied to the concrete
pattern and path of the claim. -/
theorem C9_witness :
    reMatch (parseRegexL (globToRegexL patTxt)) (toL "dummy/a.txt" ++ toL ".bak") = true ∧
    ∃ h : Handler, get_handler cmDummy bakPath = .ok h := by
  refine ⟨C9_prefix_matching.1 (parseRegexL (globToRegexL patTxt)) (toL "dummy/a.txt")
    (toL ".bak") (by decide), ?_⟩
  exact C9_prefix_matching.2.1 cmDummy bakPath bakPath.segments (toL "dummy/a.txt")
    (toL ".bak") (patTxt, "DummyHandler") rfl (by decide) (by decide) (by decide)

/-- C5: handler resolution fails with FileNotVersioned for an absolute
path outside the tracked repository root; it fails with HandlerNotFound
when the path normalizes to a relative path that no registered pattern
matches; and it returns a handler instance when some registered pattern
matches. -/
theorem C5_resolution_outcomes (cm : ContentManager) (p : SrcPath) :
    (p.absolute = true → relativeTo p cm.repositoryPath = none →
      get_handler cm p = .error (.fileNotVersioned p)) ∧
    (∀ rel, relOf cm p = some rel →
      (∀ gh ∈ cm.handlers, globMatchB gh.1 (interSlash rel) = false) →
      get_handler cm p = .error (.handlerNotFound p)) ∧
    (∀ rel gh, relOf cm p = some rel → gh ∈ cm.handlers →
      globMatchB gh.1 (interSlash rel) = true →
      ∃ h : Handler, get_handler cm p = .ok h) := by
  refine ⟨?_, ?_, ?_⟩
  · intro habs hout
    have hrel : relOf cm p = none := by
      unfold relOf
      rw [habs, if_pos rfl]
      exact hout
    unfold get_handler
    split
    · next heq => rfl
    · next rel2 heq =>
      rw [hrel] at heq
      exact absurd heq (by simp)
  · intro rel hrel hall
    have hfind : cm.handlers.find? (fun gh => globMatchB gh.1 (interSlash rel)) = none :=
      List.find?_eq_none.mpr (fun gh hgh => by simp [hall gh hgh])
    unfold get_handler
    split
    · next heq =>
      rw [hrel] at heq
      exact absurd heq (by simp)
    · next rel2 heq =>
      rw [hrel] at heq
      injection heq with heq2
      subst heq2
      rw [hfind]
  · intro rel gh hrel hmem hmatch
    have h3 : (cm.handlers.find? (fun g => globMatchB g.1 (interSlash rel))).isSome := by
      rw [List.find?_isSome]
      exact ⟨gh, hmem, hmatch⟩
    obtain ⟨g2, hg2⟩ := Option.isSome_iff_exists.mp h3
    unfold get_handler
    split
    · next heq =>
      rw [hrel] at heq
      exact absurd heq (by simp)
    · next rel2 heq =>
      rw [hrel] at heq
      injection heq with heq2
      subst heq2
      rw [hg2]
      exact ⟨⟨g2.2, p⟩, rfl⟩

/-- C5 witness: the three outcomes at concrete paths against the dummy
registry. -/
theorem C5_witness :
    get_handler cmEx ⟨true, [toL "tmp", toL "x.txt"]⟩ =
      .error (.fileNotVersioned ⟨true, [toL "tmp", toL "x.txt"]⟩) ∧
    get_handler cmEx ⟨false, [toL "handler.md"]⟩ =
      .error (.handlerNotFound ⟨false, [toL "handler.md"]⟩) ∧
    ∃ h : Handler, get_handler cmEx relTxt = .ok h := by
  refine ⟨(C5_resolution_outcomes cmEx ⟨true, [toL "tmp", toL "x.txt"]⟩).1 rfl (by decide),
    (C5_resolution_outcomes cmEx ⟨false, [toL "handler.md"]⟩).2.1 [toL "handler.md"] rfl
      (by decide), ?_⟩
  exact (C5_resolution_outcomes cmEx relTxt).2.2 relTxt.segments (patTxt, "DummyHandler")
    rfl (by decide) (by decide)

/-- Resolution outcome when the registry scan finds a first match. -/
theorem get_handler_some (cm : ContentManager) (p : SrcPath) (rel : List Str)
    (g2 : Str × String) (hrel : relOf cm p = some rel)
    (hfind : cm.handlers.find? (fun gh => globMatchB gh.1 (interSlash rel)) = some g2) :
    get_handler cm p = .ok ⟨g2.2, p⟩ := by
  unfold get_handler
  split
  · next heq =>
    rw [hrel] at heq
    exact absurd heq (by simp)
  · next rel2 heq =>
    rw [hrel] at heq
    injection heq with heq2
    subst heq2
    rw [hfind]

/-- Resolution outcome when the registry scan finds no match. -/
theorem get_handler_none (cm : ContentManager) (p : SrcPath) (rel : List Str)
    (hrel : relOf cm p = some rel)
    (hfind : cm.handlers.find? (fun gh => globMatchB gh.1 (interSlash rel)) = none) :
    get_handler cm p = .error (.handlerNotFound p) := by
  unfold get_handler
  split
  · next heq =>
    rw [hrel] at heq
    exact absurd heq (by simp)
  · next rel2 heq =>
    rw [hrel] at heq
    injection heq with heq2
    subst heq2
    rw [hfind]

/-- A full match is in particular a prefix match. -/
theorem reMatch_of_reFull : ∀ (m : Nat) (ps : List RPiece) (s : List Char),
    ps.length + s.length = m → reFull ps s = true → reMatch ps s = true := by
  intro m
  induction m using Nat.strong_induction_on with
  | _ m ih =>
    intro ps s hm h
    match ps, s with
    | [], s => rfl
    | .once a :: ps, [] =>
      rw [reFull, reRun_once_nil] at h
      exact absurd h (by simp)
    | .once a :: ps, c :: s =>
      simp only [List.length_cons] at hm
      rw [reFull, reRun_once_cons] at h
      rcases Bool.and_eq_true_iff.mp h with ⟨h1, h2⟩
      rw [reMatch, reRun_once_cons, h1, Bool.true_and]
      exact ih (ps.length + s.length) (by omega) ps s rfl h2
    | .plus a :: ps, [] =>
      rw [reFull, reRun_plus_nil] at h
      exact absurd h (by simp)
    | .plus a :: ps, c :: s =>
      simp only [List.length_cons] at hm
      rw [reFull, reRun_plus_cons] at h
      rcases Bool.and_eq_true_iff.mp h with ⟨h1, h2⟩
      rw [reMatch, reRun_plus_cons, h1, Bool.true_and]
      rcases Bool.or_eq_true_iff.mp h2 with h3 | h3
      · have h4 := ih (ps.length + s.length) (by omega) ps s rfl h3
        rw [reMatch] at h4
        rw [h4]
        exact Bool.true_or _
      · have h4 := ih (ps.length + 1 + s.length) (by omega) (.plus a :: ps) s (by simp) h3
        rw [reMatch] at h4
        rw [h4]
        exact Bool.or_true _
    | .star a :: ps, [] =>
      simp only [List.length_cons, List.length_nil] at hm
      rw [reFull, reRun_star_nil] at h
      rw [reMatch, reRun_star_nil]
      exact ih (ps.length + 0) (by omega) ps [] (by simp) h
    | .star a :: ps, c :: s =>
      simp only [List.length_cons] at hm
      rw [reFull, reRun_star_cons] at h
      rw [reMatch, reRun_star_cons]
      rcases Bool.or_eq_true_iff.mp h with h3 | h3
      · have h4 := ih (ps.length + (c :: s).length) (by simp only [List.length_cons]; omega)
          ps (c :: s) rfl h3
        rw [reMatch] at h4
        rw [h4]
        exact Bool.true_or _
      · rcases Bool.and_eq_true_iff.mp h3 with ⟨h4, h5⟩
        have h6 := ih (ps.length + 1 + s.length) (by omega) (.star a :: ps) s (by simp) h5
        rw [reMatch] at h6
        rw [h4, h6]
        simp

/-- A rendered path of plain segments is a plain string: the slash is
itself a plain character. -/
theorem interSlash_plain (segs : List Str) (h : ∀ s ∈ segs, ∀ c ∈ s, parsePlainChar c) :
    ∀ c ∈ interSlash segs, parsePlainChar c := by
  induction segs with
  | nil =>
    intro c hc
    simp [interSlash] at hc
  | cons s rest ih =>
    match rest with
    | [] =>
      intro c hc
      exact h s (by simp) c (by simpa [interSlash] using hc)
    | r :: rest2 =>
      rw [interSlash_cons]
      intro c hc
      rcases List.mem_append.mp hc with hc | hc
      · exact h s (by simp) c hc
      · rcases List.mem_cons.mp hc with rfl | hc
        · decide
        · exact ih (fun x hx => h x (List.mem_cons_of_mem s hx)) c hc

/-- C6: when the handler class resolved for the old path of a rename
differs from the handler class resolved for the new path, the rename is
rejected with HandlerChangeForbidden before any handler operation runs:
the trace is empty, so neither the rename nor the follow-up update
executes.  During a batch run of `rename_content` the rejection is
recorded as an error keyed by the old path, the result set does not
receive the pair, and the rest of the batch is still processed. -/
theorem C6_handler_change_forbidden {γ : Type} (cm : ContentManager) (ops : HandlerOps γ)
    (src dst : SrcPath) (hs hd : Handler)
    (h1 : get_handler cm src = .ok hs) (h2 : get_handler cm dst = .ok hd)
    (h3 : hs.cls ≠ hd.cls) :
    managerRename cm ops src dst = ([], .error (.handlerChangeForbidden src dst)) ∧
    ∀ rest tr2 res errs, rename_content cm ops rest = (tr2, .ok (res, errs)) →
      rename_content cm ops ((src, dst) :: rest) =
        (tr2, .ok (res, (src, .handlerChangeForbidden src dst) :: errs)) := by
  have hpart1 : managerRename cm ops src dst =
      ([], .error (.handlerChangeForbidden src dst)) := by
    unfold managerRename
    split
    · next e heq =>
      rw [h1] at heq
      exact absurd heq (by simp)
    · next hs2 heq =>
      rw [h1] at heq
      injection heq with heq2
      subst heq2
      split
      · next e heq2 =>
        rw [h2] at heq2
        exact absurd heq2 (by simp)
      · next hd2 heq2 =>
        rw [h2] at heq2
        injection heq2 with heq3
        subst heq3
        rw [if_neg h3]
  refine ⟨hpart1, ?_⟩
  intro rest tr2 res errs hrest
  show runItem src renameCaught (managerRename cm ops src dst)
    (rename_content cm ops rest) = _
  rw [hpart1, hrest, runItem_error_ok_eq,
    if_pos (show renameCaught (.handlerChangeForbidden src dst) = true from rfl)]
  rfl

/-- C6 witness: a rename from a text file to an html file against the
dummy registry, alone in a batch. -/
theorem C6_witness :
    managerRename cmEx opsOk srcTxt dstHtml =
      ([], .error (.handlerChangeForbidden srcTxt dstHtml)) ∧
    rename_content cmEx opsOk [(srcTxt, dstHtml)] =
      ([], .ok ([], [(srcTxt, .handlerChangeForbidden srcTxt dstHtml)])) := by
  have h := C6_handler_change_forbidden cmEx opsOk srcTxt dstHtml
    ⟨"DummyHandler", srcTxt⟩ ⟨"AnotherDummyHandler", dstHtml⟩ rfl rfl (by decide)
  exact ⟨h.1, h.2 [] [] [] [] rfl⟩

/-- C4: the handler resolution algorithm.  First, an absolute path under
the repository root is normalized to the root-relative path and resolved
exactly as that relative path would be, the returned instance carrying
the original path.  Second, the registry is scanned in insertion order
and the first pattern whose translated regex matches wins: whenever every
earlier pattern fails the match test and a pattern matches, resolution
returns that handler, so a later-registered matching pattern is never
chosen.  Third, the translation rewrites the directory wildcard to
`.+` between the slashes and the filename wildcard to `.+` followed by
an escaped dot, both for the canonical two-wildcard pattern and for a
plain filename-wildcard pattern.  Fourth and fifth, the languages of the
translated wildcards are characterized: the translated canonical pattern
fully matches exactly the strings made of the directory part, a slash, a
nonempty newline-free block (one or more path segments, being delimited
by the surrounding slashes), a slash, a nonempty newline-free block, a
dot and the extension; and the translated filename wildcard fully
matches exactly the filenames with that fixed extension.  Sixth, every
well-formed path of the canonical shape (the directory segments, one or
more intermediate segments, and a filename with the extension) passes
the match test of the translated canonical pattern. -/
theorem C4_resolution_algorithm :
    (∀ (cm : ContentManager) (q : List Str),
      get_handler cm ⟨true, cm.repositoryPath ++ q⟩ =
        (match get_handler cm ⟨false, q⟩ with
          | .ok h => .ok ⟨h.cls, ⟨true, cm.repositoryPath ++ q⟩⟩
          | .error _ => .error (.handlerNotFound ⟨true, cm.repositoryPath ++ q⟩))) ∧
    (∀ (root : List Str) (pre : List (Str × String)) (pat : Str) (cls : String)
      (post : List (Str × String)) (rel : List Str),
      (∀ gh ∈ pre, globMatchB gh.1 (interSlash rel) = false) →
      globMatchB pat (interSlash rel) = true →
      get_handler ⟨root, pre ++ (pat, cls) :: post⟩ ⟨false, rel⟩ =
        .ok ⟨cls, ⟨false, rel⟩⟩) ∧
    (∀ (d : Str) (c3 : Char) (e2 : Str), (∀ c ∈ d, c ≠ '*') → c3 ≠ '\n' →
      (∀ c ∈ c3 :: e2, c ≠ '*') → (∀ c ∈ c3 :: e2, c ≠ '\n') →
      globToRegexL (d ++ '/' :: '*' :: '*' :: '/' :: '*' :: '.' :: c3 :: e2) =
        d ++ '/' :: '.' :: '+' :: '/' :: '.' :: '+' :: '\\' :: '.' :: c3 :: e2) ∧
    (∀ (d : Str) (c3 : Char) (e2 : Str), (∀ c ∈ d, c ≠ '*') → c3 ≠ '\n' →
      (∀ c ∈ c3 :: e2, c ≠ '*') → (∀ c ∈ c3 :: e2, c ≠ '\n') →
      globToRegexL (d ++ '*' :: '.' :: c3 :: e2) =
        d ++ '.' :: '+' :: '\\' :: '.' :: c3 :: e2) ∧
    (∀ (d e s : Str), (∀ c ∈ d, parsePlainChar c) → (∀ c ∈ e, parsePlainChar c) →
      (reFull (parseRegexL (d ++ '/' :: '.' :: '+' :: '/' :: '.' :: '+' :: '\\' :: '.' :: e))
          s = true ↔
        ∃ A B, s = d ++ '/' :: (A ++ '/' :: (B ++ '.' :: e)) ∧ A ≠ [] ∧ B ≠ [] ∧
          (∀ c ∈ A, c ≠ '\n') ∧ (∀ c ∈ B, c ≠ '\n'))) ∧
    (∀ (e s : Str), (∀ c ∈ e, parsePlainChar c) →
      (reFull (parseRegexL ('.' :: '+' :: '\\' :: '.' :: e)) s = true ↔
        ∃ B, s = B ++ '.' :: e ∧ B ≠ [] ∧ (∀ c ∈ B, c ≠ '\n'))) ∧
    (∀ (dirs mid : List Str) (stem : Str) (c3 : Char) (e2 : Str),
      dirs ≠ [] → mid ≠ [] →
      (∀ sg ∈ dirs, ∀ c ∈ sg, parsePlainChar c) →
      (∀ sg ∈ mid, sg ≠ []) → (∀ sg ∈ mid, ∀ c ∈ sg, c ≠ '\n') →
      stem ≠ [] → (∀ c ∈ stem, c ≠ '\n') →
      (∀ c ∈ c3 :: e2, parsePlainChar c) → (∀ c ∈ c3 :: e2, c ≠ '\n') →
      globMatchB (interSlash dirs ++ '/' :: '*' :: '*' :: '/' :: '*' :: '.' :: c3 :: e2)
        (interSlash (dirs ++ (mid ++ [stem ++ '.' :: c3 :: e2]))) = true) := by
  refine ⟨?_, ?_, ?_, ?_, ?_, ?_, ?_⟩
  · intro cm q
    have h1 : relOf cm ⟨true, cm.repositoryPath ++ q⟩ = some q := by
      unfold relOf relativeTo
      rw [if_pos (show (⟨true, cm.repositoryPath ++ q⟩ : SrcPath).absolute = true from rfl)]
      rw [if_pos (show cm.repositoryPath.isPrefixOf
        (⟨true, cm.repositoryPath ++ q⟩ : SrcPath).segments = true from by
          rw [List.isPrefixOf_iff_prefix]
          exact List.prefix_append _ _)]
      rw [Option.some.injEq]
      exact List.drop_left cm.repositoryPath q
    cases hfind : cm.handlers.find? (fun gh => globMatchB gh.1 (interSlash q)) with
    | some g2 =>
      rw [get_handler_some cm ⟨true, cm.repositoryPath ++ q⟩ q g2 h1 hfind,
        get_handler_some cm ⟨false, q⟩ q g2 rfl hfind]
    | none =>
      rw [get_handler_none cm ⟨true, cm.repositoryPath ++ q⟩ q h1 hfind,
        get_handler_none cm ⟨false, q⟩ q rfl hfind]
  · intro root pre pat cls post rel hpre hmatch
    have hfind : ((pre ++ (pat, cls) :: post).find?
        (fun gh => globMatchB gh.1 (interSlash rel))) = some (pat, cls) := by
      rw [find?_append_none _ pre _ (fun x hx => hpre x hx)]
      exact List.find?_cons_of_pos post
        (show (fun gh => globMatchB gh.1 (interSlash rel)) (pat, cls) = true from hmatch)
    exact get_handler_some ⟨root, pre ++ (pat, cls) :: post⟩ ⟨false, rel⟩ rel (pat, cls)
      rfl hfind
  · intro d c3 e2 hd hc3 he hn
    exact globToRegex_canonical d c3 e2 hd hc3 he hn
  · intro d c3 e2 hd hc3 he hn
    exact globToRegex_star_dot d c3 e2 hd hc3 he hn
  · intro d e s hd he
    exact reFull_canonical_iff d e s hd he
  · intro e s he
    exact reFull_star_dot_iff e s he
  · intro dirs mid stem c3 e2 hdirs hmid hdplain hmidne hmidnl hstem hstemnl hext hextnl
    have hdp : ∀ c ∈ interSlash dirs, parsePlainChar c := interSlash_plain dirs hdplain
    rw [globMatchB, globToRegex_canonical (interSlash dirs) c3 e2
      (fun c hc => (hdp c hc).2.2.2) (hextnl c3 (by simp))
      (fun c hc => (hext c hc).2.2.2) hextnl]
    apply reMatch_of_reFull
      ((parseRegexL (interSlash dirs ++ '/' :: '.' :: '+' :: '/' :: '.' :: '+' :: '\\' ::
        '.' :: c3 :: e2)).length +
        (interSlash (dirs ++ (mid ++ [stem ++ '.' :: c3 :: e2]))).length) _ _ rfl
    rw [reFull_canonical_iff (interSlash dirs) (c3 :: e2) _ hdp hext]
    refine ⟨interSlash mid, stem, ?_, interSlash_ne_nil mid hmid hmidne, hstem,
      interSlash_noNL mid hmidnl, hstemnl⟩
    rw [interSlash_append dirs (mid ++ [stem ++ '.' :: c3 :: e2]) hdirs (by simp),
      interSlash_append mid [stem ++ '.' :: c3 :: e2] hmid (by simp)]
    rfl

/-- C4 witness: resolution and translation at a concrete registry,
pattern and path. -/
theorem C4_witness :
    get_handler cmEx relTxt = .ok ⟨"DummyHandler", relTxt⟩ ∧
    globToRegexL (toL "blog/**/*.adoc") = toL "blog/.+/.+\\.adoc" ∧
    globMatchB (toL "blog/**/*.adoc") (toL "blog/2019/post.adoc") = true := by
  refine ⟨?_, ?_, ?_⟩
  · exact C4_resolution_algorithm.2.1 [toL "repo"] [] patTxt "DummyHandler"
      [(patHtml, "AnotherDummyHandler")] relTxt.segments (by simp) (by decide)
  · exact C4_resolution_algorithm.2.2.1 (toL "blog") 'a' (toL "doc") (by decide)
      (by decide) (by decide) (by decide)
  · exact C4_resolution_algorithm.2.2.2.2.2.2 [toL "blog"] [toL "2019"] (toL "post")
      'a' (toL "doc") (by simp) (by simp) (by decide) (by decide) (by decide)
      (by decide) (by decide) (by decide) (by decide)

/-- The plan used by the run-phase claims: one added file. -/
def diffEx : Todo := ⟨[aTxt], [], [], []⟩

/-- C2: the code bug that stops every run.  `_run` computes the document
count as the length of an `itertools.chain` object, which raises
TypeError, so every run aborts with an empty trace: no category
executes and no handler operation is ever invoked, for every manager,
every handler behaviour and every plan.  Moreover even the body that
would follow the count can never return a result, because its second
category looks up the nonexistent key replaced (and its per-item call,
`manager.replace`, does not exist either). -/
theorem C2_run_never_reaches_categories {γ : Type} (cm : ContentManager)
    (ops : HandlerOps γ) (todo : Todo) :
    contentRun cm ops todo = ([], .error .typeError) ∧
    (∀ r, (contentRunBody cm ops todo).2 ≠ .ok r) := by
  refine ⟨rfl, ?_⟩
  intro r
  unfold contentRunBody
  split
  · next tr1 e heq => simp
  · next tr1 ra ea heq =>
    have hrep : replace_content cm ops todo = ([], Except.error PyExc.keyError) := rfl
    rw [hrep]
    simp

/-- Unfolding equation for the transaction protocol when the body of the
with-block raises. -/
theorem load_changes_error_eq {γ : Type} (db : DBTrace) (e : PyExc) :
    load_changes (γ := γ) db (.error e) =
      (if "UpdateFailed" ∈ exceptionsModuleNames then
        (match e with
          | .planFailure es => (⟨db.commits, db.rollbacks + 1⟩, .error (.planFailure es))
          | .runFailure es => (⟨db.commits, db.rollbacks + 1⟩, .error (.runFailure es))
          | e2 => (db, .error e2))
      else (db, .error .attributeError)) := rfl

/-- C1: the commit and rollback behaviour of `load_changes`.  A body
that finishes cleanly commits exactly once.  But when any exception
escapes the body, evaluating the except clause raises AttributeError
because `exceptions.UpdateFailed` does not exist: rollback never runs,
the transaction counters are untouched, and the caller receives
AttributeError instead of the aggregated run failure.  On top of that a
body that runs the update can never finish cleanly, since `_run` always
raises TypeError (see the run-phase theorem), so following the code no
run ever commits either, even with an empty error mapping. -/
theorem C1_commit_rollback_protocol :
    (∀ (γ : Type) (db : DBTrace) (a : γ),
      load_changes db (.ok a) = (⟨db.commits + 1, db.rollbacks⟩, .ok a)) ∧
    (∀ (γ : Type) (db : DBTrace) (e : PyExc),
      load_changes (γ := γ) db (.error e) = (db, .error .attributeError)) ∧
    runnerRun cmEmpty opsOk diffEx = .error .typeError ∧
    load_changes ⟨0, 0⟩ (runnerRun cmEmpty opsOk diffEx) =
      (⟨0, 0⟩, .error .attributeError) := by
  refine ⟨fun γ db a => rfl, ?_, rfl, ?_⟩
  · intro γ db e
    rw [load_changes_error_eq, if_neg (by decide)]
  · rw [show runnerRun cmEmpty opsOk diffEx =
      (Except.error .typeError : Except PyExc (RunResult String)) from rfl,
      load_changes_error_eq, if_neg (by decide)]

/-- C3 counterexample to the claim as stated: with an empty registry the
relative path a.txt is individually unresolvable (resolution fails with
HandlerNotFound), yet `_plan` returns the diff with an empty planning
error list: the unresolvable path is not recorded in the planning
errors, because planning never resolves paths at all. -/
theorem C3_counterexample :
    get_handler cmEmpty aTxt = .error (.handlerNotFound aTxt) ∧
    contentPlan (.ok diffEx) = .ok (some diffEx, []) := ⟨rfl, rfl⟩

/-- C3 (amended): planning never raises for individually-unresolvable
paths because it never looks at paths: a successful diff yields the plan
with an empty planning error list, and a Git failure of the diff
collaborator is the only thing recorded as a planning error.
Unresolvable paths surface during the run instead: against an empty
registry the add phase captures a HandlerNotFound error keyed by every
path and aborts nothing.  And, as the spec describes the external
runner, a run attempted on a plan with a nonempty error list raises a
plan failure with an empty trace: no handler operation is invoked. -/
theorem C3_planning_errors (γ : Type) (ops : HandlerOps γ) :
    (∀ d : Todo, contentPlan (.ok d) = .ok (some d, [])) ∧
    contentPlan (.error .gitUnknownCommit) = .ok (none, [.gitUnknownCommit]) ∧
    (∀ (root : List Str) (srcs : List SrcPath), (∀ s ∈ srcs, s.absolute = false) →
      add_content ⟨root, []⟩ ops srcs =
        ([], .ok ([], srcs.map (fun s => (s, PyExc.handlerNotFound s))))) ∧
    (∀ (cm : ContentManager) (planned : Option Todo) (e : PyExc) (es : List PyExc),
      runnerRunChecked cm ops (planned, e :: es) = ([], .error (.planFailure (e :: es)))) := by
  refine ⟨fun d => rfl, rfl, ?_, fun cm planned e es => by cases planned <;> rfl⟩
  intro root srcs h
  exact add_content_empty_registry root ops srcs h

/-- C3 witness: the add phase against an empty registry at the concrete
one-file plan. -/
theorem C3_witness :
    add_content cmEmpty opsOk [aTxt] = ([], .ok ([], [(aTxt, .handlerNotFound aTxt)])) := by
  exact (C3_planning_errors String opsOk).2.2.1 [toL "repo"] [aTxt] (by decide)

/-- Unfolding equation for the process wrapper when the wrapped method
raises. -/
theorem processWrapped_error_eq {σ γ : Type} (f : ProcState σ → ProcState σ × Except PyExc γ)
    (s : ProcState σ) (s2 : ProcState σ) (e : PyExc) (hf : f s = (s2, .error e)) :
    processWrapped (γ := γ) f s =
      (if processCaught e then
        (if s2.catchErrors then
          (⟨s2.readCount, s2.source, s2.errors ++ [e], s2.catchErrors⟩, .ok none)
         else (s2, .error e))
       else (s2, .error e)) := by
  unfold processWrapped
  rw [hf]

/-- Unfolding equation for the scan wrapper when the wrapped method
raises. -/
theorem scanWrapped_error_eq {σ γ : Type} (f : ProcState σ → ProcState σ × Except PyExc γ)
    (s : ProcState σ) (s2 : ProcState σ) (e : PyExc) (hf : f s = (s2, .error e)) :
    scanWrapped (γ := γ) f s =
      (if scanCaught e then
        (if s2.catchErrors then
          (⟨s2.readCount, s2.source, s2.errors ++ [e], s2.catchErrors⟩, .ok none)
         else (s2, .error e))
       else (s2, .error e)) := by
  unfold scanWrapped
  rw [hf]

/-- C7: the error-collection windows.  Closing a `collect_errors` window
of a processor or of a parser detaches the collected set and resets the
instance to an empty error set with catching disabled, so a fresh window
starts empty whatever the previous window collected; and the set a
window hands back is exactly what the body accumulated starting from the
entry state with the flag on.  Outside a window, a wrapped scan or
process method of a processor propagates its exception unchanged.  The
parser side however is broken: any failing parse method raises NameError
instead, whatever the catch flag says, because the except clause of its
wrapper names `exceptions.DocumentParsingError` while the module never
imports the name exceptions, so parse errors are neither collected
in-window nor propagated as themselves out-of-window. -/
theorem C7_collect_errors_windows (σ γ : Type) :
    (∀ (body : ProcState σ → ProcState σ) (s : ProcState σ),
      (collectErrorsProc body s).1.errors = [] ∧
      (collectErrorsProc body s).1.catchErrors = false ∧
      (collectErrorsProc body s).2 = (body ⟨s.readCount, s.source, s.errors, true⟩).errors) ∧
    (∀ (body : ParserState σ → ParserState σ) (s : ParserState σ),
      (collectErrorsParser body s).1.errors = [] ∧
      (collectErrorsParser body s).1.catchErrors = false ∧
      (collectErrorsParser body s).2 = (body ⟨s.source, s.errors, true⟩).errors) ∧
    (∀ (e : PyExc) (rc : Nat) (src : Option σ) (errs : List PyExc),
      processWrapped (γ := γ) (fun t => (t, .error e)) ⟨rc, src, errs, false⟩ =
        (⟨rc, src, errs, false⟩, .error e)) ∧
    (∀ (e : PyExc) (rc : Nat) (src : Option σ) (errs : List PyExc),
      scanWrapped (γ := γ) (fun t => (t, .error e)) ⟨rc, src, errs, false⟩ =
        (⟨rc, src, errs, false⟩, .error e)) ∧
    (∀ (e : PyExc) (v : σ) (errs : List PyExc) (flag : Bool),
      parseWrapped (γ := γ) (fun t => (t, .error e)) ⟨v, errs, flag⟩ =
        (⟨v, errs, flag⟩, .error .nameError)) ∧
    "exceptions" ∉ parsersModuleNames := by
  refine ⟨fun body s => ⟨rfl, rfl, rfl⟩, fun body s => ⟨rfl, rfl, rfl⟩, ?_, ?_, ?_, by decide⟩
  · intro e rc src errs
    rw [processWrapped_error_eq (fun t => (t, .error e)) ⟨rc, src, errs, false⟩
      ⟨rc, src, errs, false⟩ e rfl]
    cases hp : processCaught e
    · simp
    · simp
  · intro e rc src errs
    rw [scanWrapped_error_eq (fun t => (t, .error e)) ⟨rc, src, errs, false⟩
      ⟨rc, src, errs, false⟩ e rfl]
    cases hp : scanCaught e
    · simp
    · simp
  · intro e v errs flag
    rfl

/-- A parser constructor whose deserialize hook rejects every content
with SourceMalformatted. -/
def badParserCtor : Str → Except PyExc (ParserState Str) :=
  parserInit (fun _ => .error (.sourceMalformatted 0))

/-- A reader that always succeeds. -/
def okReader : Nat → Except ReadErr Str := fun _ => .ok (toL "junk")

/-- A reader that always fails with OSError. -/
def failReader : Nat → Except ReadErr Str := fun _ => .error .osError

/-- C8 counterexample to the claim as stated: when the parser rejects
malformed content, `load` raises the SourceMalformatted error of the
parser unchanged, not a FileLoadingError, because the parser constructor
sits outside the try block of `load`; and after a failed load nothing is
cached, so a second call reads the file again: two loads against a
failing reader perform two reads, against at most one in the claim. -/
theorem C8_counterexample :
    (load badParserCtor okReader (procInit (ParserState Str))).2 =
      .error (.sourceMalformatted 0) ∧
    isFileLoadingRes (load badParserCtor okReader (procInit (ParserState Str))).2 = false ∧
    (load badParserCtor failReader
      (load badParserCtor failReader (procInit (ParserState Str))).1).1.readCount = 2 :=
  ⟨rfl, rfl, rfl⟩

/-- C8 (amended): the caching and failure behaviour of `load`.  With a
cached source, `load` returns it and performs no read.  With an empty
cache, a failing read increments the read count by one and raises
FileLoadingError wrapping the cause; a successful read whose content the
parser rejects leaves the cache empty and propagates the parser error
unchanged; and a successful read with a successful parse caches the
source, so that by the first conjunct every later call returns the cache
without reading: the file is read at most once along any sequence of
calls once a load has succeeded. -/
theorem C8_load_caching (σ : Type) (parserCtor : Str → Except PyExc σ)
    (reader : Nat → Except ReadErr Str) :
    (∀ (rc : Nat) (v : σ) (errs : List PyExc) (ce : Bool),
      load parserCtor reader ⟨rc, some v, errs, ce⟩ = (⟨rc, some v, errs, ce⟩, .ok v)) ∧
    (∀ (rc : Nat) (errs : List PyExc) (ce : Bool) (re : ReadErr),
      load parserCtor (fun _ => .error re) ⟨rc, none, errs, ce⟩ =
        (⟨rc + 1, none, errs, ce⟩, .error (.fileLoadingError re))) ∧
    (∀ (rc : Nat) (errs : List PyExc) (ce : Bool) (content : Str) (pe : PyExc),
      load (fun _ => .error pe) (fun _ => .ok content) ⟨rc, none, errs, ce⟩ =
        ((⟨rc + 1, none, errs, ce⟩ : ProcState σ), .error pe)) ∧
    (∀ (rc : Nat) (errs : List PyExc) (ce : Bool) (content : Str) (v : σ),
      load (fun _ => .ok v) (fun _ => .ok content) ⟨rc, none, errs, ce⟩ =
        (⟨rc + 1, some v, errs, ce⟩, .ok v)) :=
  ⟨fun rc v errs ce => rfl, fun rc errs ce re => rfl, fun rc errs ce content pe => rfl,
    fun rc errs ce content v => rfl⟩
